import Mathlib

/-!
Shallow embedding of the geometric inference and ranking engine of the
`spatial-build` repository (src/services/spatialService.ts and
src/services/fileService.ts), together with proofs of the spec claims.

Modelling conventions:
* JavaScript numbers are modelled as `ℚ`.  All arithmetic appearing in the
  embedded code (`+`, `-`, `*`, `/`, `%`, `Math.abs`, comparisons) is exact
  on the values the code manipulates.
* A GeoJSON position `[lng, lat]` is a pair `Coord := ℚ × ℚ` with `.1` the
  longitude and `.2` the latitude, exactly as the source indexes them.
* The geodesy primitives imported from `@turf/turf` (`bearing`, `distance`,
  `centroid`, `booleanPointInPolygon`) and `Math.cos` are transcendental
  library functions; they are kept abstract as fields of `GeoPrims` and all
  theorems are proved for every choice of these primitives.  `centroid` and
  `booleanPointInPolygon` can throw on malformed geometries, so they are
  `Option`-valued: `none` models a thrown exception at the call site.
* Property maps are association lists in key insertion order.  A property
  value is stored as its `parseFloat` image: `some q` when the value parses
  to the number `q`, `none` when `parseFloat` yields `NaN`.
-/

/-- Longitude/latitude pair, GeoJSON order: `.1` = lng, `.2` = lat. -/
abbrev Coord : Type := ℚ × ℚ

/-- Property list of a feature: keys with the `parseFloat` image of values. -/
abbrev PropList : Type := List (String × Option ℚ)

/-! ### Angle helpers (spatialService.ts lines 13-26) -/

/-- Truncation toward zero, as JavaScript's implicit division in `%`. -/
def ratTrunc (q : ℚ) : ℤ := if 0 ≤ q then ⌊q⌋ else ⌈q⌉

/-- JavaScript's `%` operator (remainder with the sign of the dividend). -/
def jsMod (a b : ℚ) : ℚ := a - b * ratTrunc (a / b)

/-- `normalizeAngle`: normalize any angle to `0 ≤ angle < 360`
(spatialService.ts lines 16-19). -/
def normalizeAngle (angle : ℚ) : ℚ :=
  let result := jsMod (jsMod angle 360 + 360) 360
  if result = 360 then 0 else result

/-- `calculateDeviation`: shortest angular difference
(spatialService.ts lines 22-26). -/
def calculateDeviation (angle1 angle2 : ℚ) : ℚ :=
  let diff := |angle1 - angle2|
  if 180 < diff then 360 - diff else diff

theorem ratTrunc_le_of_nonneg {q : ℚ} (h : 0 ≤ q) : (ratTrunc q : ℚ) ≤ q := by
  simp only [ratTrunc, if_pos h]
  exact Int.floor_le q

theorem lt_ratTrunc_add_one_of_nonneg {q : ℚ} (h : 0 ≤ q) : q < ratTrunc q + 1 := by
  simp only [ratTrunc, if_pos h]
  exact Int.lt_floor_add_one q

theorem jsMod_nonneg_of_nonneg {a : ℚ} (ha : 0 ≤ a) : 0 ≤ jsMod a 360 := by
  have hd : (0:ℚ) ≤ a / 360 := by positivity
  have := ratTrunc_le_of_nonneg hd
  unfold jsMod
  nlinarith

theorem jsMod_lt_of_nonneg {a : ℚ} (ha : 0 ≤ a) : jsMod a 360 < 360 := by
  have hd : (0:ℚ) ≤ a / 360 := by positivity
  have := lt_ratTrunc_add_one_of_nonneg hd
  unfold jsMod
  nlinarith

theorem jsMod_neg_bounds {a : ℚ} (ha : a < 0) : -360 < jsMod a 360 ∧ jsMod a 360 ≤ 0 := by
  have hd : a / 360 < 0 := by
    have h360 : (0:ℚ) < 360 := by norm_num
    exact div_neg_of_neg_of_pos ha h360
  have hnn : ¬ (0 ≤ a / 360) := not_le.mpr hd
  have h1 : (⌈a / 360⌉ : ℚ) < a / 360 + 1 := by
    have := Int.ceil_lt_add_one (a / 360)
    exact this
  have h2 : a / 360 ≤ (⌈a / 360⌉ : ℚ) := Int.le_ceil _
  constructor
  · unfold jsMod ratTrunc
    rw [if_neg hnn]
    nlinarith
  · unfold jsMod ratTrunc
    rw [if_neg hnn]
    nlinarith

/-- Range of the embedded `normalizeAngle`: result lies in `[0, 360)`. -/
theorem normalizeAngle_mem (a : ℚ) : 0 ≤ normalizeAngle a ∧ normalizeAngle a < 360 := by
  unfold normalizeAngle
  have hinner : -360 < jsMod a 360 ∧ jsMod a 360 < 360 := by
    rcases le_or_lt 0 a with h | h
    · exact ⟨by linarith [jsMod_nonneg_of_nonneg h], jsMod_lt_of_nonneg h⟩
    · rcases jsMod_neg_bounds h with ⟨h1, h2⟩
      exact ⟨h1, by linarith⟩
  have hx : 0 ≤ jsMod a 360 + 360 := by linarith [hinner.1]
  have h1 : 0 ≤ jsMod (jsMod a 360 + 360) 360 := jsMod_nonneg_of_nonneg hx
  have h2 : jsMod (jsMod a 360 + 360) 360 < 360 := jsMod_lt_of_nonneg hx
  by_cases hc : jsMod (jsMod a 360 + 360) 360 = 360
  · simp only [hc, if_pos rfl]
    norm_num
  · simp only [if_neg hc]
    exact ⟨h1, h2⟩

theorem normalizeAngle_nonneg (a : ℚ) : 0 ≤ normalizeAngle a := (normalizeAngle_mem a).1

theorem normalizeAngle_lt (a : ℚ) : normalizeAngle a < 360 := (normalizeAngle_mem a).2

/-! ### Case-insensitive property-key matching

The source tests property keys with JavaScript regexes carrying the `i`
flag.  All patterns are ASCII, so case-insensitive matching is equivalent
to matching the ASCII-lowercased key.  `String.toLower` does not reduce in
the kernel, so we lower the character list directly. -/

/-- ASCII lowercasing of one character (the only case folding the embedded
regexes need). -/
def lowerChar (c : Char) : Char :=
  if 65 ≤ c.toNat ∧ c.toNat ≤ 90 then Char.ofNat (c.toNat + 32) else c

/-- The key, lowercased, as a character list. -/
def lowerKey (s : String) : List Char := s.data.map lowerChar

/-- `p` is an initial run of `t`. -/
def listStarts : List Char → List Char → Bool
  | [], _ => true
  | _ :: _, [] => false
  | a :: ps, b :: ts => a = b && listStarts ps ts

/-- `p` is a final run of `t`. -/
def listEnds (p t : List Char) : Bool := listStarts p.reverse t.reverse

/-- fileService.ts line 41: `/^(site_?)?lat(itude)?$/i.test(k)`.
The pattern is anchored on both sides, so it holds exactly when the
lowercased key is one of the six expansions. -/
def latKeyTest (s : String) : Bool :=
  ["lat".data, "latitude".data, "sitelat".data, "sitelatitude".data,
   "site_lat".data, "site_latitude".data].contains (lowerKey s)

/-- fileService.ts line 42: `/^(site_?)?lon(gitude)?|lng$/i.test(k)`.
The alternation binds loosely: the regex is `(^(site_?)?lon(gitude)?)|(lng$)`,
so the first alternative only requires the key to START with an expansion of
`(site_?)?lon` (the trailing `(gitude)?` can match the empty string), and the
second alternative only requires the key to END with `lng`. -/
def lngKeyTest (s : String) : Bool :=
  let t := lowerKey s
  listStarts "lon".data t || listStarts "sitelon".data t ||
    listStarts "site_lon".data t || listEnds "lng".data t

/-- spatialService.ts line 33:
`/^(site_?)?(azimuth|bearing|heading|dir(ection)?|orient(ation)?)$/i.test(k)`,
anchored on both sides. -/
def azKeyTest (s : String) : Bool :=
  (["azimuth", "bearing", "heading", "dir", "direction", "orient",
    "orientation"].map String.data).any fun b =>
      lowerKey s = b || lowerKey s = "site".data ++ b ||
        lowerKey s = "site_".data ++ b

/-! ### Data model -/

/-- GeoJSON geometries admitted by the input contract, plus `lineOther`
standing for any other coordinate-bearing geometry (LineString etc.), which
both services only ever observe through `coordAll` / first-vertex access. -/
inductive Geometry : Type where
  | point (c : Coord)
  | polygon (rings : List (List Coord))
  | multiPolygon (polys : List (List (List Coord)))
  | lineOther (coords : List Coord)
deriving DecidableEq, Repr

/-- turf `coordAll`: every position of the geometry, in traversal order. -/
def Geometry.coordAllG : Geometry → List Coord
  | .point c => [c]
  | .polygon rings => rings.flatten
  | .multiPolygon polys => (polys.map List.flatten).flatten
  | .lineOther cs => cs

/-- `geometry.type === 'Point'`. -/
def Geometry.isPointType : Geometry → Bool
  | .point _ => true
  | _ => false

/-- `geometry.type === 'Polygon' || geometry.type === 'MultiPolygon'`. -/
def Geometry.isPolyType : Geometry → Bool
  | .polygon _ => true
  | .multiPolygon _ => true
  | _ => false

/-- An input feature.  `center` is the `_center` annotation written by
fileService (`none` when absent), `geom` is `none` for a `null` geometry.
The bookkeeping properties `_id`, `_sourceId`, `_sourceName` are not part
of any claim and are omitted. -/
structure Feature : Type where
  props : PropList
  center : Option Coord
  geom : Option Geometry
deriving DecidableEq, Repr

/-- `coordAll` on a feature; turf skips a `null` geometry. -/
def Feature.coordAllF (f : Feature) : List Coord :=
  match f.geom with
  | some g => g.coordAllG
  | none => []

/-- The abstract geodesy/library primitives used by the services.  All
theorems hold for every interpretation of these fields.
`dist` is turf `distance` in kilometres (the metre variant used by the
source is exactly `1000 * dist`, turf converting units by a constant
factor); `centroidOpt`/`containsOpt` return `none` where the library call
would throw. -/
structure GeoPrims : Type where
  bearing : Coord → Coord → ℚ
  dist : Coord → Coord → ℚ
  cosDeg : ℚ → ℚ
  centroidOpt : Option Geometry → Option Coord
  containsOpt : Coord → Geometry → Option Bool

/-! ### Explicit-attribute lookup -/

/-- `getExplicitAzimuth` (spatialService.ts lines 29-39): the first key
matching the azimuth regex; its value must parse, and is normalized. -/
def getExplicitAzimuth (props : PropList) : Option ℚ :=
  match props.find? (fun kv => azKeyTest kv.1) with
  | some kv =>
    match kv.2 with
    | some v => some (normalizeAngle v)
    | none => none
  | none => none

/-- `getExplicitCenter` (fileService.ts lines 36-53): first lat-matching and
first lng-matching keys; both values must parse and lie in coordinate
range; result is `[lng, lat]`. -/
def getExplicitCenter (props : PropList) : Option Coord :=
  match props.find? (fun kv => latKeyTest kv.1),
        props.find? (fun kv => lngKeyTest kv.1) with
  | some latKV, some lngKV =>
    match latKV.2, lngKV.2 with
    | some lat, some lng =>
      if |lat| ≤ 90 ∧ |lng| ≤ 180 then some (lng, lat) else none
    | _, _ => none
  | _, _ => none

/-! ### Stable sorting

`Array.prototype.sort` with a consistent numeric comparator is required by
the JS spec (ES2019+) to be stable, and any stable sort of a list under a
total preorder produces the same list; we embed it as insertion sort, which
is stable: a new element is inserted after every element `y` with
`le y x = true`. -/

/-- Insert `x` after all already-placed elements that compare `≤ x`. -/
def stableInsert (le : α → α → Bool) (x : α) : List α → List α
  | [] => [x]
  | y :: ys => if le y x then y :: stableInsert le x ys else x :: y :: ys

/-- Stable sort by the boolean comparator `le`. -/
def stableSort (le : α → α → Bool) : List α → List α
  | [] => []
  | x :: xs => stableInsert le x (stableSort le xs)

theorem stableInsert_perm (le : α → α → Bool) (x : α) (l : List α) :
    (stableInsert le x l).Perm (x :: l) := by
  induction l with
  | nil => exact List.Perm.refl _
  | cons y ys ih =>
    unfold stableInsert
    by_cases h : le y x
    · simp only [if_pos h]
      exact ((ih.cons y).trans (List.Perm.swap x y ys))
    · simp only [if_neg h]
      exact List.Perm.refl _

theorem stableSort_perm (le : α → α → Bool) (l : List α) :
    (stableSort le l).Perm l := by
  induction l with
  | nil => exact List.Perm.refl _
  | cons x xs ih =>
    unfold stableSort
    exact (stableInsert_perm le x (stableSort le xs)).trans (ih.cons x)

theorem stableInsert_pairwise (le : α → α → Bool)
    (htot : ∀ a b, le a b = true ∨ le b a = true)
    (htrans : ∀ a b c, le a b = true → le b c = true → le a c = true)
    (x : α) (l : List α)
    (hl : l.Pairwise (fun a b => le a b = true)) :
    (stableInsert le x l).Pairwise (fun a b => le a b = true) := by
  induction l with
  | nil => simp [stableInsert]
  | cons y ys ih =>
    rcases List.pairwise_cons.mp hl with ⟨hy, hys⟩
    unfold stableInsert
    by_cases h : le y x
    · simp only [if_pos h]
      refine List.pairwise_cons.mpr ⟨?_, ih hys⟩
      intro a ha
      rcases List.mem_cons.mp ((List.Perm.mem_iff (stableInsert_perm le x ys)).mp ha) with h1 | h1
      · simpa [h1] using h
      · exact hy a h1
    · simp only [if_neg h]
      have hxy : le x y = true := by
        rcases htot x y with h2 | h2
        · exact h2
        · exact absurd h2 h
      refine List.pairwise_cons.mpr ⟨?_, hl⟩
      intro a ha
      rcases List.mem_cons.mp ha with h1 | h1
      · exact h1 ▸ hxy
      · exact htrans x y a hxy (hy a h1)

theorem stableSort_pairwise (le : α → α → Bool)
    (htot : ∀ a b, le a b = true ∨ le b a = true)
    (htrans : ∀ a b c, le a b = true → le b c = true → le a c = true)
    (l : List α) :
    (stableSort le l).Pairwise (fun a b => le a b = true) := by
  induction l with
  | nil => simp [stableSort]
  | cons x xs ih =>
    exact stableInsert_pairwise le htot htrans x (stableSort le xs) ih

/-! ### Sector geometry analyzer (spatialService.ts lines 41-151) -/

/-- Detailed sector metrics (spatialService.ts lines 42-48). -/
structure SectorMetrics : Type where
  azimuth : ℚ
  beamwidth : ℚ
  isOmni : Bool
  startAngle : ℚ
  endAngle : ℚ
deriving DecidableEq, Repr

/-- The synthetic result for Point / collapsed geometries
(spatialService.ts lines 64-65 and 74-75). -/
def pointFallback (explicitAzimuth : Option ℚ) : SectorMetrics :=
  match explicitAzimuth with
  | some az =>
    { azimuth := az, beamwidth := 65, isOmni := false,
      startAngle := normalizeAngle (az - 65/2), endAngle := normalizeAngle (az + 65/2) }
  | none =>
    { azimuth := 0, beamwidth := 360, isOmni := true, startAngle := 0, endAngle := 360 }

/-- One circular difference of the gap loop (spatialService.ts lines 113-114):
`next - current`, wrapped by `+360` when negative. -/
def gapDiff (current next : ℚ) : ℚ :=
  let diff := next - current
  if diff < 0 then diff + 360 else diff

/-- The pairs `(bearings[i], bearings[(i+1) % n])` traversed by the loop at
spatialService.ts lines 108-121. -/
def adjPairs (bs : List ℚ) : List (ℚ × ℚ) := bs.zip (bs.rotate 1)

/-- State of the gap loop: `maxGap`, `gapStart`, `gapEnd`
(spatialService.ts lines 104-106, initialized to 0). -/
structure GapState : Type where
  maxGap : ℚ
  gapStart : ℚ
  gapEnd : ℚ
deriving DecidableEq, Repr

/-- One iteration of the gap loop (spatialService.ts lines 108-121). -/
def gapStep (s : GapState) (p : ℚ × ℚ) : GapState :=
  let diff := gapDiff p.1 p.2
  if s.maxGap < diff then { maxGap := diff, gapStart := p.1, gapEnd := p.2 } else s

/-- The full gap scan over the sorted bearings. -/
def gapScan (bs : List ℚ) : GapState := (adjPairs bs).foldl gapStep ⟨0, 0, 0⟩

/-- The sorted list of bearings from the tower center to the outer vertices
(spatialService.ts lines 98-101); `sort((a, b) => a - b)` sorts ascending. -/
def sortedBearings (prims : GeoPrims) (towerCenter : Coord) (outerCoords : List Coord) : List ℚ :=
  stableSort (fun a b => decide (a ≤ b))
    (outerCoords.map fun c => normalizeAngle (prims.bearing towerCenter c))

/-- The outer coordinates: vertices farther than 2 m from the tower center
(spatialService.ts lines 86-89). -/
def outerCoordsOf (prims : GeoPrims) (towerCenter : Coord) (g : Geometry) : List Coord :=
  g.coordAllG.filter fun c => 2 < 1000 * prims.dist c towerCenter

/-- `analyzeSectorGeometry` (spatialService.ts lines 51-151).  The result is
an `Except` because the unguarded `centroid` call at line 68 would let a
library exception escape; `none` from `centroidOpt` maps to `.error`. -/
def analyzeSectorGeometry (prims : GeoPrims) (f : Feature) (towerCenter : Coord) :
    Except String SectorMetrics :=
  let explicitAzimuth := getExplicitAzimuth f.props
  match f.geom with
  | none => .ok (pointFallback explicitAzimuth)
  | some g =>
    if g.isPointType then .ok (pointFallback explicitAzimuth) else
    match prims.centroidOpt (some g) with
    | none => .error "geometry error"
    | some centerPoint =>
      if 1000 * prims.dist towerCenter centerPoint < 2 then
        .ok (pointFallback explicitAzimuth)
      else
        let outerCoords := outerCoordsOf prims towerCenter g
        if outerCoords = [] then
          .ok { azimuth := normalizeAngle (prims.bearing towerCenter centerPoint),
                beamwidth := 360, isOmni := true, startAngle := 0, endAngle := 360 }
        else
          let bearings := sortedBearings prims towerCenter outerCoords
          let st := gapScan bearings
          if st.maxGap < 60 then
            .ok { azimuth := 0, beamwidth := 360, isOmni := true, startAngle := 0, endAngle := 360 }
          else
            let startAngle := st.gapEnd
            let endAngle := st.gapStart
            let beamwidth := 360 - st.maxGap
            let geoAzimuth := normalizeAngle (startAngle + beamwidth / 2)
            .ok { azimuth := explicitAzimuth.getD geoAzimuth, beamwidth := beamwidth,
                  isOmni := false, startAngle := startAngle, endAngle := endAngle }

/-! ### Properties of the gap loop -/

theorem gapFold_maxGap_mono (l : List (ℚ × ℚ)) (s : GapState) :
    s.maxGap ≤ (l.foldl gapStep s).maxGap := by
  induction l generalizing s with
  | nil => exact le_refl _
  | cons p l ih =>
    simp only [List.foldl_cons]
    refine le_trans ?_ (ih (gapStep s p))
    unfold gapStep
    by_cases h : s.maxGap < gapDiff p.1 p.2
    · simp only [if_pos h]
      exact le_of_lt h
    · simp only [if_neg h]
      exact le_refl _

theorem gapFold_le_maxGap (l : List (ℚ × ℚ)) (s : GapState) (p : ℚ × ℚ) (hp : p ∈ l) :
    gapDiff p.1 p.2 ≤ (l.foldl gapStep s).maxGap := by
  induction l generalizing s with
  | nil => cases hp
  | cons q l ih =>
    simp only [List.foldl_cons]
    rcases List.mem_cons.mp hp with h | h
    · subst h
      refine le_trans ?_ (gapFold_maxGap_mono l (gapStep s p))
      unfold gapStep
      by_cases hc : s.maxGap < gapDiff p.1 p.2
      · simp only [if_pos hc]
        exact le_refl _
      · simp only [if_neg hc]
        exact le_of_not_lt hc
    · exact ih (gapStep s q) h

theorem gapFold_realize (l : List (ℚ × ℚ)) (s : GapState) :
    l.foldl gapStep s = s ∨
      ∃ p ∈ l, (l.foldl gapStep s).maxGap = gapDiff p.1 p.2 ∧
        (l.foldl gapStep s).gapStart = p.1 ∧ (l.foldl gapStep s).gapEnd = p.2 := by
  induction l generalizing s with
  | nil => exact Or.inl rfl
  | cons q l ih =>
    simp only [List.foldl_cons]
    by_cases hc : s.maxGap < gapDiff q.1 q.2
    · have hstep : gapStep s q = ⟨gapDiff q.1 q.2, q.1, q.2⟩ := by
        unfold gapStep
        simp [hc]
      rcases ih (gapStep s q) with h | h
      · refine Or.inr ⟨q, List.mem_cons_self q l, ?_⟩
        rw [h, hstep]
        exact ⟨rfl, rfl, rfl⟩
      · rcases h with ⟨p, hp, h1, h2, h3⟩
        exact Or.inr ⟨p, List.mem_cons_of_mem q hp, h1, h2, h3⟩
    · have hstep : gapStep s q = s := by
        unfold gapStep
        simp [hc]
      rw [hstep]
      rcases ih s with h | h
      · exact Or.inl h
      · rcases h with ⟨p, hp, h1, h2, h3⟩
        exact Or.inr ⟨p, List.mem_cons_of_mem q hp, h1, h2, h3⟩

theorem gapDiff_nonneg {c n : ℚ} (hc : 0 ≤ c) (hcl : c < 360) (hn : 0 ≤ n)
    (hnl : n < 360) : 0 ≤ gapDiff c n := by
  unfold gapDiff
  by_cases h : n - c < 0
  · simp only [if_pos h]
    linarith
  · simp only [if_neg h]
    linarith [le_of_not_lt h]

theorem gapDiff_lt {c n : ℚ} (hc : 0 ≤ c) (hcl : c < 360) (hn : 0 ≤ n)
    (hnl : n < 360) : gapDiff c n < 360 := by
  unfold gapDiff
  by_cases h : n - c < 0
  · simp only [if_pos h]
    linarith
  · simp only [if_neg h]
    linarith

theorem mem_adjPairs_left {bs : List ℚ} {p : ℚ × ℚ} (hp : p ∈ adjPairs bs) : p.1 ∈ bs :=
  (List.of_mem_zip hp).1

theorem mem_adjPairs_right {bs : List ℚ} {p : ℚ × ℚ} (hp : p ∈ adjPairs bs) : p.2 ∈ bs := by
  have := (List.of_mem_zip hp).2
  rwa [List.mem_rotate] at this

/-- Every bearing fed to the gap loop is in `[0, 360)`, hence so is the
resulting `maxGap`. -/
theorem gapScan_maxGap_bounds {bs : List ℚ} (hbs : ∀ b ∈ bs, 0 ≤ b ∧ b < 360) :
    0 ≤ (gapScan bs).maxGap ∧ (gapScan bs).maxGap < 360 := by
  unfold gapScan
  rcases gapFold_realize (adjPairs bs) ⟨0, 0, 0⟩ with h | h
  · rw [h]
    norm_num
  · rcases h with ⟨p, hp, h1, _, _⟩
    have hl := hbs p.1 (mem_adjPairs_left hp)
    have hr := hbs p.2 (mem_adjPairs_right hp)
    rw [h1]
    exact ⟨gapDiff_nonneg hl.1 hl.2 hr.1 hr.2, gapDiff_lt hl.1 hl.2 hr.1 hr.2⟩

/-! ### Sector candidate scoring (spatialService.ts lines 255-346) -/

/-- The weighted scoring algorithm (spatialService.ts lines 298-329): start
from the deviation, apply the first matching tier exclusively, then the
explicit-azimuth tie-break. -/
def candidateScore (deviation : ℚ) (isInside isNearField isInBeam hasExplicitAz : Bool) : ℚ :=
  let base := deviation
  let tiered :=
    if isInside then base - 10000
    else if isNearField then base - 5000
    else if isInBeam then base - 2000
    else base
  if hasExplicitAz then tiered - 10 else tiered

/-- One evaluated candidate (spatialService.ts lines 331-338). -/
structure EvalCand : Type where
  feature : Feature
  azimuth : ℚ
  beamwidth : ℚ
  deviation : ℚ
  isInside : Bool
  score : ℚ
deriving DecidableEq, Repr

/-- Evaluation of one member feature of the selected site
(spatialService.ts lines 264-339). -/
def evalCandidate (prims : GeoPrims) (targetPoint refPoint : Coord)
    (bearingTowerToUser : ℚ) (isNearField : Bool) (f : Feature) :
    Except String EvalCand :=
  match analyzeSectorGeometry prims f refPoint with
  | .error e => .error e
  | .ok m =>
    let deviation := if m.isOmni || isNearField then 0
                     else calculateDeviation m.azimuth bearingTowerToUser
    let isInside :=
      match f.geom with
      | some g => if g.isPolyType then (prims.containsOpt targetPoint g).getD false
                  else false
      | none => false
    let isInBeam :=
      if !m.isOmni && !isNearField then decide (deviation ≤ m.beamwidth / 2) else true
    let hasExplicitAz := (getExplicitAzimuth f.props).isSome
    .ok { feature := f, azimuth := m.azimuth, beamwidth := m.beamwidth,
          deviation := deviation, isInside := isInside,
          score := candidateScore deviation isInside isNearField isInBeam hasExplicitAz }

/-! ### Site clustering (spatialService.ts lines 196-241) -/

/-- `toFixed(4)` of the key construction, as the integer of 1e-4 units:
half-up rounding of `q * 10000`.  (JS `toFixed` rounds the decimal
expansion of the double; the exact tie rule is immaterial here, since the
claims only use that equal keys mean equal rounded values.) -/
def toFixed4 (q : ℚ) : ℤ := ⌊q * 10000 + 1/2⌋

/-- The cluster key `"lat,lng"` of a coordinate (spatialService.ts 223-226). -/
def siteKey (c : Coord) : ℤ × ℤ := (toFixed4 c.2, toFixed4 c.1)

/-- A site group (spatialService.ts lines 199-204). -/
structure SiteGroup : Type where
  key : ℤ × ℤ
  referencePoint : Coord
  distance : ℚ
  candidates : List Feature
deriving DecidableEq, Repr

/-- The center coordinates a feature contributes to clustering
(spatialService.ts lines 209-221): the precomputed `_center`, else the
first `coordAll` vertex, else the centroid — the latter call is not
guarded by a `try`, so a thrown exception escapes the query. -/
def centerCoordsE (prims : GeoPrims) (f : Feature) : Except String Coord :=
  match f.center with
  | some c => .ok c
  | none =>
    match f.coordAllF with
    | c :: _ => .ok c
    | [] =>
      match prims.centroidOpt f.geom with
      | some c => .ok c
      | none => .error "geometry error"

/-- Insert one feature into the site groups (spatialService.ts lines
223-241).  A new key is appended (JS `Map` preserves insertion order);
an existing group gets the feature appended to its members. -/
def insertFeature (prims : GeoPrims) (targetPoint : Coord) (groups : List SiteGroup)
    (f : Feature) (cc : Coord) : List SiteGroup :=
  let key := siteKey cc
  if groups.any (fun g => g.key = key) then
    groups.map fun g =>
      if g.key = key then { g with candidates := g.candidates ++ [f] } else g
  else
    groups ++ [{ key := key, referencePoint := cc,
                 distance := prims.dist targetPoint cc, candidates := [f] }]

/-- The whole clustering pass (spatialService.ts lines 206-241). -/
def clusterSites (prims : GeoPrims) (targetPoint : Coord) (fs : List Feature) :
    Except String (List SiteGroup) :=
  fs.foldlM (fun groups f =>
    match centerCoordsE prims f with
    | .error e => .error e
    | .ok cc => .ok (insertFeature prims targetPoint groups f cc)) []

/-! ### The query entry point (spatialService.ts lines 153-379) -/

/-- The bounding-box prefilter (spatialService.ts lines 165-190).  The
`try { centroid } catch { return false }` of the slow path appears as the
`none => false` branch. -/
def bboxCandidates (prims : GeoPrims) (searchLat searchLng : ℚ)
    (features : List Feature) : List Feature :=
  let latThreshold : ℚ := 1/2
  let lngThreshold : ℚ := (1/2) / max (1/10) (prims.cosDeg searchLat)
  let minLat := searchLat - latThreshold
  let maxLat := searchLat + latThreshold
  let minLng := searchLng - lngThreshold
  let maxLng := searchLng + lngThreshold
  features.filter fun f =>
    match f.center with
    | some c => decide (minLat ≤ c.2 ∧ c.2 ≤ maxLat ∧ minLng ≤ c.1 ∧ c.1 ≤ maxLng)
    | none =>
      match prims.centroidOpt f.geom with
      | some c => decide (minLat ≤ c.2 ∧ c.2 ≤ maxLat ∧ minLng ≤ c.1 ∧ c.1 ≤ maxLng)
      | none => false

/-- The analysis result (src/types.ts; spatialService.ts lines 353-376).
`sourceId`, `sourceName` (string pass-through) and `timestamp` (impure)
are not part of any claim and are omitted. -/
structure AnalysisResult : Type where
  nearestFeature : Feature
  distance : ℚ
  bearing : ℚ
  sectorAzimuth : ℚ
  sectorBeamwidth : ℚ
  deviationAngle : ℚ
  isInside : Bool
  searchPoint : Coord
  nearestPoint : Coord
  rank : ℤ
  totalFeatures : ℕ
deriving DecidableEq, Repr

/-- The features surviving the prefilter, with the fallback to the whole
dataset when the filter removed everything (spatialService.ts lines 192-194). -/
def featuresToAnalyzeOf (prims : GeoPrims) (searchLat searchLng : ℚ)
    (features : List Feature) : List Feature :=
  if (bboxCandidates prims searchLat searchLng features).length > 0 then
    bboxCandidates prims searchLat searchLng features
  else features

/-- `performSpatialAnalysis` (spatialService.ts lines 153-379).  Errors are
thrown exceptions; the `"internal"` branch models the `TypeError` that
dereferencing `evaluatedCandidates[0]` on an empty list would raise (it is
proved unreachable below). -/
def performSpatialAnalysis (prims : GeoPrims) (searchLat searchLng : ℚ)
    (features : List Feature) (rank : ℤ) : Except String AnalysisResult :=
  let targetPoint : Coord := (searchLng, searchLat)
  if features.isEmpty then .error "No features found in dataset to analyze."
  else
    match clusterSites prims targetPoint
        (featuresToAnalyzeOf prims searchLat searchLng features) with
    | .error e => .error e
    | .ok groups =>
      let sites := stableSort (fun a b => decide (a.distance ≤ b.distance)) groups
      let totalSites := sites.length
      let safeRank := max 1 (min rank (totalSites : ℤ))
      match sites.get? (safeRank - 1).toNat with
      | none => .error "No suitable site found."
      | some selectedSite =>
        let bearingTowerToUser :=
          normalizeAngle (prims.bearing selectedSite.referencePoint targetPoint)
        let isNearField := decide (selectedSite.distance * 1000 < 30)
        match selectedSite.candidates.mapM
            (evalCandidate prims targetPoint selectedSite.referencePoint
              bearingTowerToUser isNearField) with
        | .error e => .error e
        | .ok evaluated =>
          match stableSort (fun a b => decide (a.score ≤ b.score)) evaluated with
          | [] => .error "internal"
          | bestMatch :: _ =>
            .ok { nearestFeature := bestMatch.feature,
                  distance := selectedSite.distance,
                  bearing := normalizeAngle (prims.bearing targetPoint selectedSite.referencePoint),
                  sectorAzimuth := bestMatch.azimuth,
                  sectorBeamwidth := bestMatch.beamwidth,
                  deviationAngle := bestMatch.deviation,
                  isInside := bestMatch.isInside,
                  searchPoint := (searchLng, searchLat),
                  nearestPoint := selectedSite.referencePoint,
                  rank := safeRank,
                  totalFeatures := totalSites }

/-! ### Tower center inference (fileService.ts lines 15-264)

`parseGeoFile`'s per-feature annotation loop (lines 167-261) is embedded as
`inferCenter`, a function of the feature's properties and geometry, the
abstract turf `bearing`/`centroid` primitives, and the dataset-wide
coordinate frequency index.  The surrounding file parsing (KML/KMZ, XML,
dedup) is out of scope of the claims. -/

/-- `calculateAngle` (fileService.ts lines 17-32): angle at `curr` between
its two neighbours, as the wrapped absolute bearing difference.  On a pair
`Coord` the turf `point` constructor cannot throw, so the `catch` branch
returning 180 is dead in the model. -/
def calculateAngle (brg : Coord → Coord → ℚ) (curr prev next : Coord) : ℚ :=
  let diff := |brg curr prev - brg curr next|
  if 180 < diff then 360 - diff else diff

/-- Increment the frequency of one coordinate (fileService.ts line 158).
The key is the exact coordinate (the source keys by the exact
`c.join(',')` string, which is injective on numbers). -/
def bumpCoord (m : List (Coord × ℕ)) (c : Coord) : List (Coord × ℕ) :=
  if m.any (fun e => e.1 = c) then
    m.map fun e => if e.1 = c then (e.1, e.2 + 1) else e
  else m ++ [(c, 1)]

/-- The coordinate frequency index (fileService.ts lines 147-160): per
feature, each distinct coordinate of `coordAll` is counted once. -/
def buildCoordCounts (fs : List Feature) : List (Coord × ℕ) :=
  fs.foldl (fun m f => f.coordAllF.dedup.foldl bumpCoord m) []

/-- `coordCounts.get(cStr)`, with `undefined` as 0. -/
def lookupCount (m : List (Coord × ℕ)) (c : Coord) : ℕ :=
  ((m.find? (fun e => e.1 = c)).map (fun e => e.2)).getD 0

/-- The representative ring (fileService.ts lines 183-196): outer ring of a
Polygon, outer ring of the first polygon of a MultiPolygon, otherwise the
`coordAll` fallback (tagged `.inr`).  `.inl none` captures the `undefined`
ring dereference a Polygon/MultiPolygon with empty coordinates would hit. -/
def ringFor : Geometry → (Option (List Coord)) ⊕ (List Coord)
  | .polygon rings => .inl rings.head?
  | .multiPolygon polys => .inl (polys.head?.bind List.head?)
  | g => .inr g.coordAllG

/-- The analyzed ring length (fileService.ts lines 205-211): the closing
duplicate vertex of a closed ring is dropped. -/
def analysisLengthOf (ring : List Coord) : ℕ :=
  if ring.getD 0 (0, 0) = ring.getD (ring.length - 1) (0, 0) then ring.length - 1
  else ring.length

/-- Turning angles at the analyzed ring vertices (fileService.ts lines
213-220): `angles[j] = calculateAngle(ring[j], ring[(j-1+n)%n], ring[(j+1)%n])`. -/
def ringAngles (brg : Coord → Coord → ℚ) (ring : List Coord) (n : ℕ) : List ℚ :=
  (List.range n).map fun j =>
    calculateAngle brg (ring.getD j (0, 0))
      (ring.getD ((j + n - 1) % n) (0, 0)) (ring.getD ((j + 1) % n) (0, 0))

/-- Mean of the turning angles (fileService.ts line 223). -/
def anglesAvg (xs : List ℚ) : ℚ := xs.sum / xs.length

/-- Population variance of the turning angles (fileService.ts line 224). -/
def anglesVar (xs : List ℚ) : ℚ :=
  ((xs.map fun b => (b - anglesAvg xs) ^ 2).sum) / xs.length

/-- One candidate's weighted score in the sector-tip scan (fileService.ts
lines 241-251).  `coordCounts.get(cStr) || 1` maps both a missing key and a
zero count to 1. -/
def tipScore (counts : List (Coord × ℕ)) (ring : List Coord) (angles : List ℚ)
    (k : ℕ) : ℚ :=
  let coord := ring.getD k (0, 0)
  let rawCount := lookupCount counts coord
  let count : ℚ := if rawCount = 0 then 1 else rawCount
  let scoreTopology := count * 50
  let scoreIndex : ℚ := if k = 0 then 80 else 0
  let scoreGeometry := (180 - angles.getD k 0) * 2
  scoreTopology + scoreIndex + scoreGeometry

/-- The sector-tip scan (fileService.ts lines 238-257): fold over vertex
indices, keeping the first strictly-best score.  `bestScore` starts at
`-Infinity` (modelled by `⊥ : WithBot ℚ`), `bestCenter` at `ring[0]`. -/
def tipScan (counts : List (Coord × ℕ)) (ring : List Coord) (angles : List ℚ)
    (n : ℕ) : WithBot ℚ × Coord :=
  (List.range n).foldl
    (fun st k =>
      let totalScore := tipScore counts ring angles k
      if st.1 < (totalScore : WithBot ℚ) then ((totalScore : WithBot ℚ), ring.getD k (0, 0))
      else st)
    ((⊥ : WithBot ℚ), ring.getD 0 (0, 0))

/-- The per-feature center inference (fileService.ts lines 176-261).
Returns the `_center` annotation the loop writes (or `none` when the loop
`continue`s without writing one); `.error` models the `undefined`
dereference on a Polygon/MultiPolygon with an empty coordinates array. -/
def inferCenter (brg : Coord → Coord → ℚ) (centroidOpt : Option Geometry → Option Coord)
    (counts : List (Coord × ℕ)) (props : PropList) (g : Geometry) :
    Except String (Option Coord) :=
  match getExplicitCenter props with
  | some c => .ok (some c)
  | none =>
    match ringFor g with
    | .inr coords => .ok coords.head?
    | .inl none => .error "type error"
    | .inl (some ring) =>
      if ring.length < 3 then .ok ring.head?
      else
        let analysisLength := analysisLengthOf ring
        let angles := ringAngles brg ring analysisLength
        -- fileService.ts line 227: `stdDev < 15` with `stdDev = sqrt variance`
        -- is equivalent to `variance < 225` on nonnegative values.
        if analysisLength > 3 ∧ anglesAvg angles > 90 ∧ anglesVar angles < 225 then
          match centroidOpt (some g) with
          | some c => .ok (some c)
          | none => .ok (some (tipScan counts ring angles analysisLength).2)
        else .ok (some (tipScan counts ring angles analysisLength).2)

/-! ### Helper facts about explicit azimuths and bearings -/

theorem getExplicitAzimuth_mem {props : PropList} {az : ℚ}
    (h : getExplicitAzimuth props = some az) : 0 ≤ az ∧ az < 360 := by
  unfold getExplicitAzimuth at h
  rcases hf : props.find? (fun kv => azKeyTest kv.1) with _ | ⟨k, val⟩
  · rw [hf] at h
    simp at h
  · rw [hf] at h
    cases val with
    | none => simp at h
    | some v =>
      simp at h
      exact h ▸ normalizeAngle_mem v

theorem sortedBearings_mem {prims : GeoPrims} {tc : Coord} {cs : List Coord} {b : ℚ}
    (hb : b ∈ sortedBearings prims tc cs) : 0 ≤ b ∧ b < 360 := by
  unfold sortedBearings at hb
  have := (List.Perm.mem_iff (stableSort_perm _ _)).mp hb
  rcases List.mem_map.mp this with ⟨c, _, rfl⟩
  exact normalizeAngle_mem _

/-! ### Claim C10 (corrected) -/

/-- C10, counterexample to the claim as stated: `calculateDeviation` is NOT
bounded in `[0,180]` for all real inputs — at `(0, 1000)` the wrap branch
produces `360 - 1000 = -640`. -/
theorem calculateDeviation_range_counterexample :
    calculateDeviation 0 1000 = -640 ∧
      ¬ (0 ≤ calculateDeviation 0 1000 ∧ calculateDeviation 0 1000 ≤ 180) := by
  constructor
  · unfold calculateDeviation
    norm_num
  · unfold calculateDeviation
    norm_num

/-- C10, amended: `calculateDeviation` is symmetric and zero on the
diagonal everywhere, maps `(0,180)` to `180`, and its result lies in
`[0,180]` whenever the inputs are at most `360` apart (in particular for
any two normalized angles, the only way the analysis calls it). -/
theorem calculateDeviation_props (a b : ℚ) :
    calculateDeviation a b = calculateDeviation b a ∧
      calculateDeviation a a = 0 ∧
      calculateDeviation 0 180 = 180 ∧
      (|a - b| ≤ 360 → 0 ≤ calculateDeviation a b ∧ calculateDeviation a b ≤ 180) := by
  refine ⟨?_, ?_, ?_, ?_⟩
  · unfold calculateDeviation
    rw [abs_sub_comm]
  · unfold calculateDeviation
    norm_num
  · unfold calculateDeviation
    norm_num
  · intro hle
    unfold calculateDeviation
    have h0 : 0 ≤ |a - b| := abs_nonneg _
    by_cases h : 180 < |a - b|
    · simp only [if_pos h]
      constructor <;> linarith
    · simp only [if_neg h]
      exact ⟨h0, le_of_not_lt h⟩

/-- C10 witness: the amended bound applied at the concrete pair `(5, 300)`. -/
theorem calculateDeviation_props_witness :
    0 ≤ calculateDeviation 5 300 ∧ calculateDeviation 5 300 ≤ 180 :=
  (calculateDeviation_props 5 300).2.2.2 (by norm_num)

/-! ### Claim C1 -/

/-- C1: in the sector candidate scoring, a contained candidate (isInside)
always scores strictly lower than a non-contained candidate that is in
beam, for all deviations in `[0,180]`, any shared near-field flag, and any
explicit-azimuth flags. -/
theorem insideBeatsInBeam (devA devB : ℚ) (nf bA eA eB : Bool)
    (hA0 : 0 ≤ devA) (hA1 : devA ≤ 180) (hB0 : 0 ≤ devB) (hB1 : devB ≤ 180) :
    candidateScore devA true nf bA eA < candidateScore devB false nf true eB := by
  unfold candidateScore
  cases nf <;> cases bA <;> cases eA <;> cases eB <;> simp <;> linarith

/-- C1 witness: concrete instance with the inside candidate at the worst
deviation (180) and the in-beam candidate at the best (0). -/
theorem insideBeatsInBeam_witness :
    candidateScore 180 true false true false < candidateScore 0 false false true true :=
  insideBeatsInBeam 180 0 false true false true (by norm_num) (by norm_num)
    (by norm_num) (by norm_num)

/-! ### Claim C9 -/

theorem pointFallback_inv (props : PropList) :
    0 ≤ (pointFallback (getExplicitAzimuth props)).azimuth ∧
      (pointFallback (getExplicitAzimuth props)).azimuth < 360 ∧
      0 < (pointFallback (getExplicitAzimuth props)).beamwidth ∧
      (pointFallback (getExplicitAzimuth props)).beamwidth ≤ 360 ∧
      ((pointFallback (getExplicitAzimuth props)).isOmni = true →
        (pointFallback (getExplicitAzimuth props)).beamwidth = 360) := by
  rcases hea : getExplicitAzimuth props with _ | az
  · refine ⟨?_, ?_, ?_, ?_, ?_⟩ <;> simp [pointFallback] <;> norm_num
  · have haz := getExplicitAzimuth_mem hea
    refine ⟨?_, ?_, ?_, ?_, ?_⟩ <;> simp [pointFallback] <;> norm_num
    · exact haz.1
    · exact haz.2

/-- C9: every sector metrics record produced by `analyzeSectorGeometry` has
a normalized azimuth in `[0,360)`, a beamwidth in `(0,360]`, and
`isOmni = true` forces `beamwidth = 360`. -/
theorem analyzeSectorGeometry_invariants (prims : GeoPrims) (f : Feature) (tc : Coord)
    (m : SectorMetrics) (h : analyzeSectorGeometry prims f tc = .ok m) :
    0 ≤ m.azimuth ∧ m.azimuth < 360 ∧ 0 < m.beamwidth ∧ m.beamwidth ≤ 360 ∧
      (m.isOmni = true → m.beamwidth = 360) := by
  unfold analyzeSectorGeometry at h
  split at h
  · -- f.geom = none
    simp only [Except.ok.injEq] at h
    exact h ▸ pointFallback_inv f.props
  · -- f.geom = some g
    rename_i g _
    split at h
    · -- Point geometry
      simp only [Except.ok.injEq] at h
      exact h ▸ pointFallback_inv f.props
    · split at h
      · -- centroid threw
        cases h
      · rename_i centerPoint _
        split at h
        · -- collapsed polygon
          simp only [Except.ok.injEq] at h
          exact h ▸ pointFallback_inv f.props
        · dsimp only at h
          split at h
          · -- no outer vertices
            simp only [Except.ok.injEq] at h
            subst h
            refine ⟨normalizeAngle_nonneg _, normalizeAngle_lt _, by norm_num, by norm_num, ?_⟩
            intro
            rfl
          · -- gap analysis
            have hbounds := @gapScan_maxGap_bounds
              (sortedBearings prims tc (outerCoordsOf prims tc g))
              (fun b hb => sortedBearings_mem hb)
            split at h
            · -- maxGap < 60: omni
              simp only [Except.ok.injEq] at h
              subst h
              refine ⟨by norm_num, by norm_num, by norm_num, by norm_num, ?_⟩
              intro
              rfl
            · -- directional sector
              rename_i hge
              simp only [Except.ok.injEq] at h
              subst h
              refine ⟨?_, ?_, ?_, ?_, ?_⟩
              · rcases hea : getExplicitAzimuth f.props with _ | az
                · simp only [hea, Option.getD_none]
                  exact normalizeAngle_nonneg _
                · simp only [hea, Option.getD_some]
                  exact (getExplicitAzimuth_mem hea).1
              · rcases hea : getExplicitAzimuth f.props with _ | az
                · simp only [hea, Option.getD_none]
                  exact normalizeAngle_lt _
                · simp only [hea, Option.getD_some]
                  exact (getExplicitAzimuth_mem hea).2
              · simp only
                linarith [hbounds.2]
              · simp only
                linarith [hbounds.1]
              · intro hcontra
                simp at hcontra

/-! ### Claim C2 -/

/-- The gap-analysis bearings of a geometry, as built by
`analyzeSectorGeometry`. -/
def bearingsOf (prims : GeoPrims) (tc : Coord) (g : Geometry) : List ℚ :=
  sortedBearings prims tc (outerCoordsOf prims tc g)

theorem sortedBearings_sorted (prims : GeoPrims) (tc : Coord) (cs : List Coord) :
    (sortedBearings prims tc cs).Pairwise (fun a b => a ≤ b) := by
  unfold sortedBearings
  have h := stableSort_pairwise (fun a b : ℚ => decide (a ≤ b))
    (fun a b => by
      rcases le_total a b with h | h
      · exact Or.inl (decide_eq_true h)
      · exact Or.inr (decide_eq_true h))
    (fun a b c h1 h2 => decide_eq_true (le_trans (of_decide_eq_true h1) (of_decide_eq_true h2)))
    (cs.map fun c => normalizeAngle (prims.bearing tc c))
  exact h.imp fun hab => of_decide_eq_true hab

/-- C2: for a non-Point feature whose centroid is at least 2 m from the
anchor and with at least one vertex farther than 2 m, the analyzer builds
the normalized bearings to the outer vertices, sorted ascending; the gap
scan computes the largest circular gap between consecutive bearings
(wrapping last-to-first); a maximal gap below 60° yields the
omnidirectional result (azimuth 0, beamwidth 360); otherwise the wedge runs
from the bearing just after the gap to the bearing just before it,
`beamwidth = 360 - maxGap`, and the azimuth is the explicit azimuth when
present, else the wedge midpoint `normalize(startAngle + beamwidth/2)`. -/
theorem analyzeSectorGeometry_gap_spec (prims : GeoPrims) (f : Feature) (tc : Coord)
    (g : Geometry) (cp : Coord)
    (hg : f.geom = some g) (hnp : g.isPointType = false)
    (hcp : prims.centroidOpt (some g) = some cp)
    (hfar : ¬ 1000 * prims.dist tc cp < 2)
    (houter : outerCoordsOf prims tc g ≠ []) :
    (bearingsOf prims tc g).Pairwise (fun a b => a ≤ b) ∧
      (∀ p ∈ adjPairs (bearingsOf prims tc g),
        gapDiff p.1 p.2 ≤ (gapScan (bearingsOf prims tc g)).maxGap) ∧
      ((gapScan (bearingsOf prims tc g)).maxGap < 60 →
        analyzeSectorGeometry prims f tc =
          .ok { azimuth := 0, beamwidth := 360, isOmni := true,
                startAngle := 0, endAngle := 360 }) ∧
      (¬ (gapScan (bearingsOf prims tc g)).maxGap < 60 →
        ∃ p ∈ adjPairs (bearingsOf prims tc g),
          gapDiff p.1 p.2 = (gapScan (bearingsOf prims tc g)).maxGap ∧
            analyzeSectorGeometry prims f tc =
              .ok { azimuth := (getExplicitAzimuth f.props).getD
                      (normalizeAngle (p.2 + (360 - (gapScan (bearingsOf prims tc g)).maxGap) / 2)),
                    beamwidth := 360 - (gapScan (bearingsOf prims tc g)).maxGap,
                    isOmni := false, startAngle := p.2, endAngle := p.1 }) := by
  have hred : analyzeSectorGeometry prims f tc =
      (if (gapScan (bearingsOf prims tc g)).maxGap < 60 then
        .ok { azimuth := 0, beamwidth := 360, isOmni := true,
              startAngle := 0, endAngle := 360 }
      else
        .ok { azimuth := (getExplicitAzimuth f.props).getD
                (normalizeAngle ((gapScan (bearingsOf prims tc g)).gapEnd +
                  (360 - (gapScan (bearingsOf prims tc g)).maxGap) / 2)),
              beamwidth := 360 - (gapScan (bearingsOf prims tc g)).maxGap,
              isOmni := false,
              startAngle := (gapScan (bearingsOf prims tc g)).gapEnd,
              endAngle := (gapScan (bearingsOf prims tc g)).gapStart }) := by
    unfold analyzeSectorGeometry
    rw [hg]
    simp only [hnp, Bool.false_eq_true, if_false]
    rw [hcp]
    simp only [if_neg hfar]
    rw [if_neg houter]
    rfl
  refine ⟨sortedBearings_sorted prims tc _, ?_, ?_, ?_⟩
  · intro p hp
    exact gapFold_le_maxGap _ _ p hp
  · intro hlt
    rw [hred, if_pos hlt]
  · intro hge
    rcases gapFold_realize (adjPairs (bearingsOf prims tc g)) ⟨0, 0, 0⟩ with h | h
    · exfalso
      have : (gapScan (bearingsOf prims tc g)).maxGap = 0 := by
        unfold gapScan
        rw [h]
      rw [this] at hge
      norm_num at hge
    · rcases h with ⟨p, hp, h1, h2, h3⟩
      have h1' : (gapScan (bearingsOf prims tc g)).maxGap = gapDiff p.1 p.2 := h1
      have h2' : (gapScan (bearingsOf prims tc g)).gapStart = p.1 := h2
      have h3' : (gapScan (bearingsOf prims tc g)).gapEnd = p.2 := h3
      refine ⟨p, hp, h1'.symm, ?_⟩
      rw [hred, if_neg hge, h2', h3']

theorem ratTrunc_eq_zero {q : ℚ} (h0 : 0 ≤ q) (h1 : q < 1) : ratTrunc q = 0 := by
  unfold ratTrunc
  rw [if_pos h0]
  exact Int.floor_eq_zero_iff.mpr ⟨h0, h1⟩

theorem ratTrunc_eq_one {q : ℚ} (h0 : 1 ≤ q) (h1 : q < 2) : ratTrunc q = 1 := by
  unfold ratTrunc
  rw [if_pos (le_trans (by norm_num) h0)]
  rw [Int.floor_eq_iff]
  constructor
  · exact_mod_cast h0
  · push_cast
    linarith

/-- `normalizeAngle` fixes angles already in `[0, 360)`. -/
theorem normalizeAngle_eq_self {x : ℚ} (h0 : 0 ≤ x) (h1 : x < 360) :
    normalizeAngle x = x := by
  unfold normalizeAngle jsMod
  have ha : ratTrunc (x / 360) = 0 := by
    apply ratTrunc_eq_zero
    · positivity
    · rw [div_lt_one (by norm_num)]
      exact h1
  rw [ha]
  have hx : x - 360 * ((0 : ℤ) : ℚ) = x := by push_cast; ring
  rw [hx]
  have hb : ratTrunc ((x + 360) / 360) = 1 := by
    apply ratTrunc_eq_one
    · rw [le_div_iff (by norm_num)]
      linarith
    · rw [div_lt_iff (by norm_num)]
      linarith
  rw [hb]
  have hy : x + 360 - 360 * ((1 : ℤ) : ℚ) = x := by push_cast; ring
  rw [hy]
  rw [if_neg (by linarith)]

/-- Abstract primitives for the concrete witnesses: bearing returns the
target's first component, distance is the taxicab distance, the centroid is
the fixed point `(50, 50)`, containment always succeeds with `false`. -/
def wPrims : GeoPrims where
  bearing := fun _ b => b.1
  dist := fun a b => |a.1 - b.1| + |a.2 - b.2|
  cosDeg := fun _ => 1
  centroidOpt := fun _ => some (50, 50)
  containsOpt := fun _ _ => some false

/-- Octagon-like test polygon: vertices seen under bearings
0,50,...,350 from the origin. -/
def wGeom : Geometry :=
  .polygon [[(0, 1), (50, 1), (100, 1), (150, 1), (200, 1), (250, 1), (300, 1), (350, 1)]]

def wFeat : Feature := { props := [], center := none, geom := some wGeom }

theorem wFeat_bearings :
    bearingsOf wPrims (0, 0) wGeom = [0, 50, 100, 150, 200, 250, 300, 350] := by
  unfold bearingsOf sortedBearings outerCoordsOf wGeom wPrims
  norm_num [Geometry.coordAllG, stableSort, stableInsert,
    normalizeAngle_eq_self]

/-- C2 witness: the omnidirectional branch of the gap analysis, applied to
the concrete octagon (maximal circular gap 50 < 60). -/
theorem analyzeSectorGeometry_gap_spec_witness :
    analyzeSectorGeometry wPrims wFeat (0, 0) =
      .ok { azimuth := 0, beamwidth := 360, isOmni := true,
            startAngle := 0, endAngle := 360 } := by
  have h := (analyzeSectorGeometry_gap_spec wPrims wFeat (0, 0) wGeom (50, 50)
    rfl rfl rfl
    (by norm_num [wPrims])
    (by unfold outerCoordsOf wGeom wPrims
        norm_num [Geometry.coordAllG]
        exact List.cons_ne_nil _ _)).2.2.1
  apply h
  rw [wFeat_bearings]
  norm_num [gapScan, adjPairs, List.rotate, gapStep, gapDiff]

/-- C9 witness: the invariants instantiated on a null-geometry feature,
which the analyzer maps to the omnidirectional record. -/
theorem analyzeSectorGeometry_invariants_witness :
    0 ≤ (SectorMetrics.mk 0 360 true 0 360).azimuth ∧
      (SectorMetrics.mk 0 360 true 0 360).azimuth < 360 ∧
      0 < (SectorMetrics.mk 0 360 true 0 360).beamwidth ∧
      (SectorMetrics.mk 0 360 true 0 360).beamwidth ≤ 360 ∧
      ((SectorMetrics.mk 0 360 true 0 360).isOmni = true →
        (SectorMetrics.mk 0 360 true 0 360).beamwidth = 360) :=
  analyzeSectorGeometry_invariants wPrims
    { props := [], center := none, geom := none } (0, 0)
    (SectorMetrics.mk 0 360 true 0 360) rfl

/-! ### Claim C3 (corrected) -/

/-- The claim's reading of the latitude pattern `(site_)?lat(itude)?` as a
FULL match of the entire key (underscore mandatory in the prefix). -/
def claimLatFullMatch (s : String) : Bool :=
  ["lat".data, "latitude".data, "site_lat".data,
   "site_latitude".data].contains (lowerKey s)

/-- The claim's reading of the longitude pattern `(site_)?lon(gitude)?|lng`
as a FULL match of the entire key. -/
def claimLngFullMatch (s : String) : Bool :=
  ["lon".data, "longitude".data, "site_lon".data, "site_longitude".data,
   "lng".data].contains (lowerKey s)

/-- C3, counterexample to the claim as stated: the key `"lonx"` matches no
full-match expansion of `(site_)?lon(gitude)?|lng`, yet the explicit-center
branch fires on `{lat: 10, lonx: 20}` and sets the anchor to `[20, 10]`,
because the source regex `/^(site_?)?lon(gitude)?|lng$/i` only requires a
PREFIX match of its first alternative. -/
theorem getExplicitCenter_counterexample :
    getExplicitCenter [("lat", some 10), ("lonx", some 20)] = some (20, 10) ∧
      claimLngFullMatch "lonx" = false ∧ claimLatFullMatch "lonx" = false := by
  refine ⟨?_, by decide, by decide⟩
  have h1 : List.find? (fun kv => latKeyTest kv.1)
      [("lat", some (10:ℚ)), ("lonx", some 20)] = some ("lat", some 10) := rfl
  have h2 : List.find? (fun kv => lngKeyTest kv.1)
      [("lat", some (10:ℚ)), ("lonx", some 20)] = some ("lonx", some 20) := rfl
  unfold getExplicitCenter
  rw [h1, h2]
  norm_num

/-- C3, amended: the anchor is taken from the FIRST key matching the
source's lat regex (full match of `(site_?)?lat(itude)?`, underscore
optional) and the FIRST key matching the source's lng regex (which holds
when the key merely starts with `lon`/`sitelon`/`site_lon` or ends with
`lng`, its alternation being unanchored as a whole); when both values
parse with `|lat| ≤ 90` and `|lng| ≤ 180`, the feature's anchor is exactly
`[lng, lat]` and every geometric heuristic of the inference is skipped,
whatever the geometry, frequency index, and geodesy primitives. -/
theorem getExplicitCenter_spec (props : PropList) (g : Geometry)
    (brg : Coord → Coord → ℚ) (cOpt : Option Geometry → Option Coord)
    (counts : List (Coord × ℕ)) (latK lngK : String) (lv lgv : ℚ)
    (hlat : props.find? (fun kv => latKeyTest kv.1) = some (latK, some lv))
    (hlng : props.find? (fun kv => lngKeyTest kv.1) = some (lngK, some lgv))
    (hlv : |lv| ≤ 90) (hlgv : |lgv| ≤ 180) :
    getExplicitCenter props = some (lgv, lv) ∧
      inferCenter brg cOpt counts props g = .ok (some (lgv, lv)) := by
  have hc : getExplicitCenter props = some (lgv, lv) := by
    unfold getExplicitCenter
    rw [hlat, hlng]
    simp only [if_pos (And.intro hlv hlgv)]
  refine ⟨hc, ?_⟩
  unfold inferCenter
  rw [hc]

/-- C3 witness: case-insensitive explicit attributes `{LAT: 10, Lng: 20}`
produce the anchor `[20, 10]` and skip the heuristics. -/
theorem getExplicitCenter_spec_witness :
    getExplicitCenter [("LAT", some 10), ("Lng", some 20)] = some (20, 10) ∧
      inferCenter (fun _ _ => 0) (fun _ => none) []
        [("LAT", some 10), ("Lng", some 20)] (.point (3, 3)) = .ok (some (20, 10)) :=
  getExplicitCenter_spec [("LAT", some 10), ("Lng", some 20)] (.point (3, 3))
    (fun _ _ => 0) (fun _ => none) [] "LAT" "Lng" 10 20
    (by rfl) (by rfl) (by norm_num) (by norm_num)

/-! ### Claim C7 -/

/-- C7: a Polygon (or first polygon of a MultiPolygon) feature without
explicit coordinate attributes whose analyzed outer ring has more than 3
vertices, mean turning angle above 90°, and population standard deviation
below 15° (equivalently, variance below 225) is classified regular and
anchored at its centroid. -/
theorem regularPolygon_uses_centroid (brg : Coord → Coord → ℚ)
    (cOpt : Option Geometry → Option Coord) (counts : List (Coord × ℕ))
    (props : PropList) (g : Geometry) (ring : List Coord) (cen : Coord)
    (hexp : getExplicitCenter props = none)
    (hring : ringFor g = .inl (some ring))
    (hlen : ¬ ring.length < 3)
    (hn : analysisLengthOf ring > 3)
    (havg : anglesAvg (ringAngles brg ring (analysisLengthOf ring)) > 90)
    (hvar : anglesVar (ringAngles brg ring (analysisLengthOf ring)) < 225)
    (hcen : cOpt (some g) = some cen) :
    inferCenter brg cOpt counts props g = .ok (some cen) := by
  unfold inferCenter
  rw [hexp, hring]
  dsimp only
  rw [if_neg hlen]
  simp only [if_pos (And.intro hn (And.intro havg hvar))]
  rw [hcen]

/-- The square test ring (closed): under `wBrg` every analyzed vertex has
turning angle 160°, so the ring is judged regular. -/
def wRing : List Coord := [(0, 0), (100, 0), (200, 0), (300, 0), (0, 0)]

/-- Bearing primitive for the C7 witness: the target's first component. -/
def wBrg : Coord → Coord → ℚ := fun _ b => b.1

/-- C7 witness: the concrete closed square ring with constant turning
angles is anchored at the centroid `(7, 7)` supplied by the centroid
primitive. -/
theorem regularPolygon_uses_centroid_witness :
    inferCenter wBrg (fun _ => some (7, 7)) [] [] (.polygon [wRing]) = .ok (some (7, 7)) := by
  have hlen4 : analysisLengthOf wRing = 4 := by
    unfold analysisLengthOf wRing
    norm_num
  apply regularPolygon_uses_centroid wBrg (fun _ => some (7, 7)) [] [] (.polygon [wRing])
    wRing (7, 7) rfl rfl
  · unfold wRing
    norm_num
  · rw [hlen4]
    norm_num
  · rw [hlen4]
    unfold ringAngles calculateAngle wRing wBrg anglesAvg
    norm_num [List.range_succ]
  · rw [hlen4]
    unfold ringAngles calculateAngle wRing wBrg anglesVar anglesAvg
    norm_num [List.range_succ]
  · rfl

/-! ### Claim C4: the frequency index -/

theorem lookupCount_nil (c' : Coord) : lookupCount [] c' = 0 := rfl

theorem lookupCount_cons (e : Coord × ℕ) (m : List (Coord × ℕ)) (c' : Coord) :
    lookupCount (e :: m) c' = if e.1 = c' then e.2 else lookupCount m c' := by
  unfold lookupCount
  by_cases h : e.1 = c'
  · rw [List.find?_cons_of_pos _ (by simp [h])]
    simp [h]
  · rw [List.find?_cons_of_neg _ (by simp [h])]
    simp [h]

theorem lookupCount_map_bump (c c' : Coord) (l : List (Coord × ℕ)) :
    lookupCount (l.map fun e => if e.1 = c then (e.1, e.2 + 1) else e) c' =
      lookupCount l c' + (if c' = c ∧ l.any (fun e => e.1 = c') then 1 else 0) := by
  induction l with
  | nil => simp [lookupCount]
  | cons e l ih =>
    have hkey : (if e.1 = c then (e.1, e.2 + 1) else e).1 = e.1 := by
      by_cases h : e.1 = c <;> simp [h]
    rw [List.map_cons, lookupCount_cons, lookupCount_cons, hkey, List.any_cons]
    by_cases he : e.1 = c'
    · rw [if_pos he, if_pos he]
      by_cases hc : e.1 = c
      · have hcc : c' = c := he ▸ hc
        rw [if_pos hc]
        simp [hcc, he]
      · have hcc : ¬ c' = c := fun h => hc (he.symm ▸ h)
        rw [if_neg hc]
        simp [hcc]
    · rw [if_neg he, if_neg he, ih]
      have hd : (decide (e.1 = c') : Bool) = false := by simp [he]
      rw [hd, Bool.false_or]

theorem lookupCount_append_single (m : List (Coord × ℕ)) (c c' : Coord) (v : ℕ) :
    lookupCount (m ++ [(c, v)]) c' =
      if m.any (fun e => e.1 = c') then lookupCount m c'
      else if c' = c then v else 0 := by
  induction m with
  | nil =>
    rw [List.nil_append, lookupCount_cons]
    simp only [List.any_nil, Bool.false_eq_true, if_false, lookupCount_nil]
    by_cases h : c' = c
    · simp [h]
    · have hne : c ≠ c' := fun hcc => h hcc.symm
      simp [h, hne]
  | cons e m ih =>
    rw [List.cons_append, lookupCount_cons, lookupCount_cons, List.any_cons, ih]
    by_cases he : e.1 = c'
    · simp [he]
    · have hd : (decide (e.1 = c') : Bool) = false := by simp [he]
      simp only [if_neg he, hd, Bool.false_or]

theorem lookupCount_bumpCoord (m : List (Coord × ℕ)) (c c' : Coord) :
    lookupCount (bumpCoord m c) c' = lookupCount m c' + (if c' = c then 1 else 0) := by
  unfold bumpCoord
  by_cases hany : m.any (fun e => e.1 = c)
  · rw [if_pos hany, lookupCount_map_bump]
    by_cases hc : c' = c
    · subst hc
      rw [if_pos ⟨rfl, hany⟩, if_pos rfl]
    · rw [if_neg (fun hand => hc hand.1), if_neg hc]
  · rw [if_neg hany, lookupCount_append_single]
    by_cases hfound : m.any (fun e => e.1 = c')
    · rw [if_pos hfound]
      by_cases hc : c' = c
      · exact absurd (hc ▸ hfound) hany
      · rw [if_neg hc]
        omega
    · rw [if_neg hfound]
      have hz : lookupCount m c' = 0 := by
        unfold lookupCount
        rcases hfind : m.find? (fun e => e.1 = c') with _ | e
        · rw [hfind]
          rfl
        · exfalso
          apply hfound
          rcases List.find?_some hfind with hp
          exact List.any_eq_true.mpr ⟨e, List.mem_of_find?_eq_some hfind, hp⟩
      rw [hz]
      by_cases hc : c' = c <;> simp [hc]

theorem lookupCount_foldl_bump (l : List Coord) (hl : l.Nodup) (m : List (Coord × ℕ))
    (c' : Coord) :
    lookupCount (l.foldl bumpCoord m) c' =
      lookupCount m c' + (if c' ∈ l then 1 else 0) := by
  induction l generalizing m with
  | nil => simp
  | cons a l ih =>
    rcases List.nodup_cons.mp hl with ⟨ha, hl'⟩
    rw [List.foldl_cons, ih hl', lookupCount_bumpCoord]
    by_cases hc : c' = a
    · subst hc
      rw [if_pos rfl, if_neg ha, if_pos (List.mem_cons_self _ _)]
    · rw [if_neg hc]
      by_cases hmem : c' ∈ l
      · rw [if_pos hmem, if_pos (List.mem_cons_of_mem _ hmem)]
      · rw [if_neg hmem, if_neg (by
          intro hm
          rcases List.mem_cons.mp hm with h | h
          · exact hc h
          · exact hmem h)]

/-- C4, part one: the frequency index counts, for each coordinate, the
number of features whose vertex set contains it — each feature contributes
at most once however many times it repeats the coordinate. -/
theorem buildCoordCounts_count (fs : List Feature) (c : Coord) :
    lookupCount (buildCoordCounts fs) c =
      fs.countP (fun f => decide (c ∈ f.coordAllF)) := by
  suffices h : ∀ m, lookupCount (fs.foldl (fun m f => f.coordAllF.dedup.foldl bumpCoord m) m) c =
      lookupCount m c + fs.countP (fun f => decide (c ∈ f.coordAllF)) by
    have := h []
    rw [lookupCount_nil] at this
    unfold buildCoordCounts
    omega
  induction fs with
  | nil => intro m; simp
  | cons f fs ih =>
    intro m
    rw [List.foldl_cons, ih, lookupCount_foldl_bump _ (List.nodup_dedup _), List.countP_cons]
    by_cases hmem : c ∈ f.coordAllF
    · rw [if_pos (List.mem_dedup.mpr hmem)]
      simp only [hmem]
      simp
      omega
    · rw [if_neg (fun h => hmem (List.mem_dedup.mp h))]
      simp only [hmem]
      simp

/-! ### Claim C4: the sector-tip scan -/

theorem tipScan_argmax (counts : List (Coord × ℕ)) (ring : List Coord)
    (angles : List ℚ) (n : ℕ) (hn : 0 < n) :
    ∃ j < n, tipScan counts ring angles n =
        ((tipScore counts ring angles j : WithBot ℚ), ring.getD j (0, 0)) ∧
      (∀ i < n, tipScore counts ring angles i ≤ tipScore counts ring angles j) ∧
      (∀ i < j, tipScore counts ring angles i < tipScore counts ring angles j) := by
  induction n with
  | zero => cases hn
  | succ n ih =>
    rcases Nat.eq_zero_or_pos n with hz | hpos
    · subst hz
      refine ⟨0, Nat.zero_lt_one, ?_, ?_, ?_⟩
      · unfold tipScan
        have hr : List.range (0 + 1) = [0] := rfl
        rw [hr, List.foldl_cons, List.foldl_nil]
        simp only
        rw [if_pos (WithBot.bot_lt_coe _)]
      · intro i hi
        interval_cases i
        exact le_refl _
      · intro i hi
        cases hi
    · rcases ih hpos with ⟨j, hj, heq, hmax, hfirst⟩
      have hstep : tipScan counts ring angles (n + 1) =
          (let totalScore := tipScore counts ring angles n
           if (tipScan counts ring angles n).1 < (totalScore : WithBot ℚ) then
             ((totalScore : WithBot ℚ), ring.getD n (0, 0))
           else tipScan counts ring angles n) := by
        unfold tipScan
        rw [List.range_succ, List.foldl_append, List.foldl_cons, List.foldl_nil]
      by_cases hlt : tipScore counts ring angles j < tipScore counts ring angles n
      · refine ⟨n, Nat.lt_succ_self n, ?_, ?_, ?_⟩
        · rw [hstep, heq]
          simp only [WithBot.coe_lt_coe, hlt, if_pos]
        · intro i hi
          rcases Nat.lt_succ_iff_lt_or_eq.mp hi with h | h
          · exact le_of_lt (lt_of_le_of_lt (hmax i h) hlt)
          · subst h
            exact le_refl _
        · intro i hi
          exact lt_of_le_of_lt (hmax i hi) hlt
      · refine ⟨j, Nat.lt_succ_of_lt hj, ?_, ?_, ?_⟩
        · rw [hstep, heq]
          simp only [WithBot.coe_lt_coe]
          rw [if_neg (by exact fun hcon => hlt hcon)]
        · intro i hi
          rcases Nat.lt_succ_iff_lt_or_eq.mp hi with h | h
          · exact hmax i h
          · subst h
            exact le_of_not_lt hlt
        · exact hfirst

theorem analysisLengthOf_pos {ring : List Coord} (hlen : ¬ ring.length < 3) :
    0 < analysisLengthOf ring := by
  unfold analysisLengthOf
  by_cases h : ring.getD 0 (0, 0) = ring.getD (ring.length - 1) (0, 0)
  · rw [if_pos h]
    omega
  · rw [if_neg h]
    omega

/-- C4: in the sector-tip fallback, (a) the frequency index counts each
feature at most once per distinct coordinate; (b) each analyzed vertex
scores `occurrenceCount * 50 + 80·[first] + (180 − angle) * 2` (when the
vertex occurs in the index; a missing vertex is scored with count 1); and
(c) the anchor is the vertex whose total score is maximal, the first such
vertex winning ties. -/
theorem sectorTipScoring_spec (brg : Coord → Coord → ℚ)
    (cOpt : Option Geometry → Option Coord) (fs : List Feature)
    (props : PropList) (g : Geometry) (ring : List Coord)
    (hexp : getExplicitCenter props = none)
    (hring : ringFor g = .inl (some ring))
    (hlen : ¬ ring.length < 3)
    (hreach : ¬ (analysisLengthOf ring > 3 ∧
          anglesAvg (ringAngles brg ring (analysisLengthOf ring)) > 90 ∧
          anglesVar (ringAngles brg ring (analysisLengthOf ring)) < 225) ∨
        cOpt (some g) = none) :
    (∀ c, lookupCount (buildCoordCounts fs) c =
        fs.countP (fun f => decide (c ∈ f.coordAllF))) ∧
      (∀ k, lookupCount (buildCoordCounts fs) (ring.getD k (0, 0)) ≠ 0 →
        tipScore (buildCoordCounts fs) ring
            (ringAngles brg ring (analysisLengthOf ring)) k =
          (lookupCount (buildCoordCounts fs) (ring.getD k (0, 0)) : ℚ) * 50 +
            (if k = 0 then 80 else 0) +
            (180 - (ringAngles brg ring (analysisLengthOf ring)).getD k 0) * 2) ∧
      ∃ j < analysisLengthOf ring,
        inferCenter brg cOpt (buildCoordCounts fs) props g =
            .ok (some (ring.getD j (0, 0))) ∧
          (∀ i < analysisLengthOf ring,
            tipScore (buildCoordCounts fs) ring
                (ringAngles brg ring (analysisLengthOf ring)) i ≤
              tipScore (buildCoordCounts fs) ring
                (ringAngles brg ring (analysisLengthOf ring)) j) ∧
          (∀ i < j,
            tipScore (buildCoordCounts fs) ring
                (ringAngles brg ring (analysisLengthOf ring)) i <
              tipScore (buildCoordCounts fs) ring
                (ringAngles brg ring (analysisLengthOf ring)) j) := by
  refine ⟨buildCoordCounts_count fs, ?_, ?_⟩
  · intro k hk
    unfold tipScore
    dsimp only
    rw [if_neg hk]
  · rcases tipScan_argmax (buildCoordCounts fs) ring
      (ringAngles brg ring (analysisLengthOf ring)) (analysisLengthOf ring)
      (analysisLengthOf_pos hlen) with ⟨j, hj, heq, hmax, hfirst⟩
    refine ⟨j, hj, ?_, hmax, hfirst⟩
    have hsnd : (tipScan (buildCoordCounts fs) ring
        (ringAngles brg ring (analysisLengthOf ring)) (analysisLengthOf ring)).2 =
        ring.getD j (0, 0) := by
      rw [heq]
    unfold inferCenter
    rw [hexp, hring]
    dsimp only
    rw [if_neg hlen]
    rcases hreach with hreach | hreach
    · simp only [if_neg hreach]
      rw [hsnd]
    · by_cases hcond : analysisLengthOf ring > 3 ∧
          anglesAvg (ringAngles brg ring (analysisLengthOf ring)) > 90 ∧
          anglesVar (ringAngles brg ring (analysisLengthOf ring)) < 225
      · simp only [if_pos hcond]
        rw [hreach, hsnd]
      · simp only [if_neg hcond]
        rw [hsnd]

/-- Open test ring for the sector-tip witness. -/
def wTipRing : List Coord := [(0, 0), (10, 0), (20, 0)]

/-- C4 witness: on the concrete open ring, the first vertex wins the scan
(score 470 vs 370 and 390) and becomes the anchor. -/
theorem sectorTipScoring_spec_witness :
    inferCenter wBrg (fun _ => none) (buildCoordCounts []) []
      (.polygon [wTipRing]) = .ok (some (0, 0)) := by
  obtain ⟨-, -, j, hj, heq, hmax, hfirst⟩ :=
    sectorTipScoring_spec wBrg (fun _ => none) [] [] (.polygon [wTipRing]) wTipRing
      rfl rfl (by unfold wTipRing; norm_num) (Or.inr rfl)
  have hlen3 : analysisLengthOf wTipRing = 3 := by
    have e1 : wTipRing.getD 0 (0, 0) = ((0 : ℚ), (0 : ℚ)) := rfl
    have e2 : wTipRing.getD (wTipRing.length - 1) (0, 0) = ((20 : ℚ), (0 : ℚ)) := rfl
    unfold analysisLengthOf
    rw [e1, e2, if_neg (fun hcon => by
      have h1 := congrArg Prod.fst hcon
      simp only [Prod.fst_zero] at h1
      norm_num at h1)]
    rfl
  rw [hlen3] at hj hmax hfirst
  have hangles : ringAngles wBrg wTipRing 3 = [10, 20, 10] := by
    unfold ringAngles calculateAngle wBrg wTipRing
    norm_num [List.range_succ]
  have hscore : ∀ k, tipScore (buildCoordCounts []) wTipRing [10, 20, 10] k =
      50 + (if k = 0 then 80 else 0) + (180 - [(10 : ℚ), 20, 10].getD k 0) * 2 := by
    intro k
    unfold tipScore buildCoordCounts lookupCount
    norm_num
  interval_cases j
  · exact heq
  · exfalso
    have h := hmax 0 (by norm_num)
    rw [hangles] at h
    rw [hscore 0, hscore 1] at h
    norm_num at h
  · exfalso
    have h := hfirst 0 (by norm_num)
    rw [hangles] at h
    rw [hscore 0, hscore 2] at h
    norm_num at h

/-! ### Clustering invariants (claims C5, C6, C8) -/

/-- The rounding key a feature clusters under (when its center coordinates
can be computed). -/
def keyOfE (prims : GeoPrims) (f : Feature) : Option (ℤ × ℤ) :=
  match centerCoordsE prims f with
  | .ok c => some (siteKey c)
  | .error _ => none

/-- Invariant of the clustering fold after processing the features `done`:
group keys are distinct; each group holds, in input order, exactly the
processed features whose key equals the group key; the reference point is
the center of the group's first feature, with the group distance derived
from it; and every processed feature with a computable key has a group. -/
def GroupsInv (prims : GeoPrims) (target : Coord) (done : List Feature)
    (gs : List SiteGroup) : Prop :=
  (gs.map SiteGroup.key).Nodup ∧
    (∀ g ∈ gs,
      g.candidates = done.filter (fun f => keyOfE prims f = some g.key) ∧
        siteKey g.referencePoint = g.key ∧
        g.distance = prims.dist target g.referencePoint ∧
        ∃ f0 rest, g.candidates = f0 :: rest ∧
          centerCoordsE prims f0 = .ok g.referencePoint) ∧
    (∀ f ∈ done, ∀ k, keyOfE prims f = some k → ∃ g ∈ gs, g.key = k)

theorem groupsInv_nil (prims : GeoPrims) (target : Coord) :
    GroupsInv prims target [] [] := by
  refine ⟨List.nodup_nil, ?_, ?_⟩
  · intro g hg
    cases hg
  · intro f hf
    cases hf

theorem insertFeature_inv (prims : GeoPrims) (target : Coord)
    (done : List Feature) (gs : List SiteGroup) (f : Feature) (cc : Coord)
    (hcc : centerCoordsE prims f = .ok cc)
    (hinv : GroupsInv prims target done gs) :
    GroupsInv prims target (done ++ [f]) (insertFeature prims target gs f cc) := by
  rcases hinv with ⟨hnd, hgroups, hcomplete⟩
  have hkey : keyOfE prims f = some (siteKey cc) := by
    unfold keyOfE
    rw [hcc]
  unfold insertFeature
  by_cases hany : gs.any (fun g => g.key = siteKey cc)
  · rw [if_pos hany]
    refine ⟨?_, ?_, ?_⟩
    · have : (gs.map fun g =>
          if g.key = siteKey cc then { g with candidates := g.candidates ++ [f] }
          else g).map SiteGroup.key = gs.map SiteGroup.key := by
        rw [List.map_map]
        apply List.map_congr_left
        intro g hg
        by_cases h : g.key = siteKey cc <;> simp [h]
      rw [this]
      exact hnd
    · intro g' hg'
      rcases List.mem_map.mp hg' with ⟨g, hg, hmap⟩
      rcases hgroups g hg with ⟨hfilter, hrefkey, hdist, f0, rest, hcand, href⟩
      by_cases h : g.key = siteKey cc
      · rw [if_pos h] at hmap
        subst hmap
        refine ⟨?_, hrefkey, hdist, f0, rest ++ [f], ?_, href⟩
        · simp only
          rw [List.filter_append, ← hfilter]
          have h2 : List.filter (fun f' => decide (keyOfE prims f' = some g.key)) [f] = [f] := by
            simp only [List.filter_cons, List.filter_nil]
            rw [if_pos (decide_eq_true (by rw [hkey, h]))]
          rw [h2]
        · simp only [hcand, List.cons_append]
      · rw [if_neg h] at hmap
        subst hmap
        refine ⟨?_, hrefkey, hdist, f0, rest, hcand, href⟩
        rw [List.filter_append, ← hfilter]
        have : List.filter (fun f' => decide (keyOfE prims f' = some g.key)) [f] = [] := by
          simp only [List.filter_cons, List.filter_nil]
          rw [if_neg]
          simp only [hkey, Option.some.injEq]
          intro hcon
          exact h (of_decide_eq_true hcon).symm
        rw [this, List.append_nil]
    · intro f' hf' k hk
      rcases List.mem_append.mp hf' with h | h
      · rcases hcomplete f' h k hk with ⟨g, hg, hgk⟩
        by_cases hcase : g.key = siteKey cc
        · refine ⟨{ g with candidates := g.candidates ++ [f] }, ?_, hgk⟩
          apply List.mem_map.mpr
          exact ⟨g, hg, by rw [if_pos hcase]⟩
        · refine ⟨g, ?_, hgk⟩
          apply List.mem_map.mpr
          exact ⟨g, hg, by rw [if_neg hcase]⟩
      · have heq2 : f' = f := by
          rcases List.mem_cons.mp h with h1 | h1
          · exact h1
          · cases h1
        rw [heq2, hkey] at hk
        injection hk with hk
        rcases List.any_eq_true.mp hany with ⟨g, hg, hgk⟩
        refine ⟨{ g with candidates := g.candidates ++ [f] }, ?_, ?_⟩
        · apply List.mem_map.mpr
          exact ⟨g, hg, by rw [if_pos (of_decide_eq_true hgk)]⟩
        · simp only
          rw [of_decide_eq_true hgk, hk]
  · rw [if_neg hany]
    have hnotin : ∀ g ∈ gs, g.key ≠ siteKey cc := by
      intro g hg hcon
      exact hany (List.any_eq_true.mpr ⟨g, hg, decide_eq_true hcon⟩)
    refine ⟨?_, ?_, ?_⟩
    · rw [List.map_append]
      simp only [List.map_cons, List.map_nil]
      apply List.Nodup.append hnd (List.nodup_singleton _)
      intro k hk1 hk2
      rcases List.mem_map.mp hk1 with ⟨g, hg, hgk⟩
      rcases List.mem_singleton.mp hk2 with rfl
      exact hnotin g hg hgk
    · intro g' hg'
      rcases List.mem_append.mp hg' with hg | hg
      · rcases hgroups g' hg with ⟨hfilter, hrefkey, hdist, f0, rest, hcand, href⟩
        refine ⟨?_, hrefkey, hdist, f0, rest, hcand, href⟩
        rw [List.filter_append, ← hfilter]
        have : List.filter (fun f' => decide (keyOfE prims f' = some g'.key)) [f] = [] := by
          simp only [List.filter_cons, List.filter_nil]
          rw [if_neg]
          simp only [hkey, Option.some.injEq]
          intro hcon
          exact hnotin g' hg (of_decide_eq_true hcon).symm
        rw [this, List.append_nil]
      · rcases List.mem_singleton.mp hg with rfl
        refine ⟨?_, rfl, rfl, f, [], rfl, hcc⟩
        simp only
        rw [List.filter_append]
        have h1 : List.filter (fun f' => decide (keyOfE prims f' = some (siteKey cc))) done = [] := by
          apply List.filter_eq_nil_iff.mpr
          intro f' hf' hcon
          rcases hcomplete f' hf' (siteKey cc) (of_decide_eq_true hcon) with ⟨g, hg, hgk⟩
          exact hnotin g hg hgk
        have h2 : List.filter (fun f' => decide (keyOfE prims f' = some (siteKey cc))) [f] = [f] := by
          simp only [List.filter_cons, List.filter_nil]
          rw [if_pos (decide_eq_true hkey)]
        rw [h1, h2, List.nil_append]
    · intro f' hf' k hk
      rcases List.mem_append.mp hf' with h | h
      · rcases hcomplete f' h k hk with ⟨g, hg, hgk⟩
        exact ⟨g, List.mem_append_left _ hg, hgk⟩
      · rcases List.mem_cons.mp h with h1 | h1
        · subst h1
          rw [hkey] at hk
          injection hk with hk
          refine ⟨_, List.mem_append_right _ (List.mem_singleton_self _), hk⟩
        · cases h1

theorem clusterFold_inv (prims : GeoPrims) (target : Coord) :
    ∀ (fs done : List Feature) (gs gs' : List SiteGroup),
      fs.foldlM (fun groups f =>
        match centerCoordsE prims f with
        | Except.error e => (Except.error e : Except String (List SiteGroup))
        | Except.ok cc => Except.ok (insertFeature prims target groups f cc)) gs =
        Except.ok gs' →
      GroupsInv prims target done gs → GroupsInv prims target (done ++ fs) gs' := by
  intro fs
  induction fs with
  | nil =>
    intro done gs gs' hfold hinv
    simp only [List.foldlM_nil] at hfold
    injection hfold with hfold
    rw [List.append_nil]
    exact hfold ▸ hinv
  | cons f fs ih =>
    intro done gs gs' hfold hinv
    rw [List.foldlM_cons] at hfold
    rcases hcc : centerCoordsE prims f with e | cc
    · rw [hcc] at hfold
      cases hfold
    · rw [hcc] at hfold
      have hfold' : fs.foldlM (fun groups f =>
          match centerCoordsE prims f with
          | Except.error e => (Except.error e : Except String (List SiteGroup))
          | Except.ok cc => Except.ok (insertFeature prims target groups f cc))
          (insertFeature prims target gs f cc) = Except.ok gs' := hfold
      have hstep := insertFeature_inv prims target done gs f cc hcc hinv
      have := ih (done ++ [f]) (insertFeature prims target gs f cc) gs' hfold' hstep
      rwa [List.append_assoc, List.singleton_append] at this

theorem clusterSites_inv (prims : GeoPrims) (target : Coord) (fs : List Feature)
    (gs : List SiteGroup) (h : clusterSites prims target fs = Except.ok gs) :
    GroupsInv prims target fs gs := by
  have := clusterFold_inv prims target fs [] [] gs h (groupsInv_nil prims target)
  rwa [List.nil_append] at this

theorem centerCoordsE_ok (prims : GeoPrims) (f : Feature)
    (h : (prims.centroidOpt f.geom).isSome) :
    ∃ c, centerCoordsE prims f = Except.ok c := by
  unfold centerCoordsE
  rcases f.center with _ | c
  · rcases f.coordAllF with _ | ⟨c, cs⟩
    · rcases Option.isSome_iff_exists.mp h with ⟨c, hc⟩
      rw [hc]
      exact ⟨c, rfl⟩
    · exact ⟨c, rfl⟩
  · exact ⟨c, rfl⟩

theorem clusterFold_ok (prims : GeoPrims) (target : Coord) :
    ∀ (fs : List Feature) (gs : List SiteGroup),
      (∀ f ∈ fs, (prims.centroidOpt f.geom).isSome) →
      ∃ gs', fs.foldlM (fun groups f =>
        match centerCoordsE prims f with
        | Except.error e => (Except.error e : Except String (List SiteGroup))
        | Except.ok cc => Except.ok (insertFeature prims target groups f cc)) gs =
        Except.ok gs' := by
  intro fs
  induction fs with
  | nil =>
    intro gs _
    exact ⟨gs, rfl⟩
  | cons f fs ih =>
    intro gs hcen
    rw [List.foldlM_cons]
    rcases centerCoordsE_ok prims f (hcen f (List.mem_cons_self _ _)) with ⟨cc, hcc⟩
    rw [hcc]
    rcases ih (insertFeature prims target gs f cc)
      (fun f' hf' => hcen f' (List.mem_cons_of_mem _ hf')) with ⟨gs', hgs'⟩
    exact ⟨gs', hgs'⟩

theorem clusterSites_ok (prims : GeoPrims) (target : Coord) (fs : List Feature)
    (hcen : ∀ f ∈ fs, (prims.centroidOpt f.geom).isSome) :
    ∃ gs, clusterSites prims target fs = Except.ok gs :=
  clusterFold_ok prims target fs [] hcen

theorem analyzeSectorGeometry_ok (prims : GeoPrims) (f : Feature) (tc : Coord)
    (h : (prims.centroidOpt f.geom).isSome) :
    ∃ m, analyzeSectorGeometry prims f tc = Except.ok m := by
  unfold analyzeSectorGeometry
  rcases hg : f.geom with _ | g
  · exact ⟨_, rfl⟩
  · rw [hg] at h
    by_cases hp : g.isPointType
    · simp only [hp, if_true]
      exact ⟨_, rfl⟩
    · simp only [hp, Bool.false_eq_true, if_false]
      rcases Option.isSome_iff_exists.mp h with ⟨cp, hcp⟩
      rw [hcp]
      dsimp only
      by_cases hfar : 1000 * prims.dist tc cp < 2
      · rw [if_pos hfar]
        exact ⟨_, rfl⟩
      · rw [if_neg hfar]
        by_cases ho : outerCoordsOf prims tc g = []
        · exact ⟨_, by rw [if_pos ho]⟩
        · by_cases hgap :
              (gapScan (sortedBearings prims tc (outerCoordsOf prims tc g))).maxGap < 60
          · exact ⟨_, by rw [if_neg ho, if_pos hgap]⟩
          · exact ⟨_, by rw [if_neg ho, if_neg hgap]⟩

theorem evalCandidate_ok (prims : GeoPrims) (target refPoint : Coord) (b2u : ℚ)
    (nf : Bool) (f : Feature) (h : (prims.centroidOpt f.geom).isSome) :
    ∃ ec, evalCandidate prims target refPoint b2u nf f = Except.ok ec := by
  unfold evalCandidate
  rcases analyzeSectorGeometry_ok prims f refPoint h with ⟨m, hm⟩
  rw [hm]
  exact ⟨_, rfl⟩

theorem mapM_evalCandidate_ok (prims : GeoPrims) (target refPoint : Coord) (b2u : ℚ)
    (nf : Bool) :
    ∀ (l : List Feature), (∀ f ∈ l, (prims.centroidOpt f.geom).isSome) →
      ∃ ecs, l.mapM (evalCandidate prims target refPoint b2u nf) = Except.ok ecs ∧
        ecs.length = l.length := by
  intro l
  induction l with
  | nil =>
    intro _
    exact ⟨[], rfl, rfl⟩
  | cons f l ih =>
    intro hcen
    rcases evalCandidate_ok prims target refPoint b2u nf f
      (hcen f (List.mem_cons_self _ _)) with ⟨ec, hec⟩
    rcases ih (fun f' hf' => hcen f' (List.mem_cons_of_mem _ hf')) with ⟨ecs, hecs, hlen⟩
    refine ⟨ec :: ecs, ?_, by simp [hlen]⟩
    rw [List.mapM_cons, hec, hecs]
    rfl

theorem featuresToAnalyzeOf_ne_nil (prims : GeoPrims) (searchLat searchLng : ℚ)
    (features : List Feature) (hne : features ≠ []) :
    featuresToAnalyzeOf prims searchLat searchLng features ≠ [] := by
  unfold featuresToAnalyzeOf
  by_cases h : (bboxCandidates prims searchLat searchLng features).length > 0
  · rw [if_pos h]
    exact List.ne_nil_of_length_pos h
  · rw [if_neg h]
    exact hne

theorem featuresToAnalyzeOf_sub (prims : GeoPrims) (searchLat searchLng : ℚ)
    (features : List Feature) :
    ∀ f ∈ featuresToAnalyzeOf prims searchLat searchLng features, f ∈ features := by
  intro f hf
  unfold featuresToAnalyzeOf at hf
  by_cases h : (bboxCandidates prims searchLat searchLng features).length > 0
  · rw [if_pos h] at hf
    unfold bboxCandidates at hf
    exact List.mem_of_mem_filter hf
  · rw [if_neg h] at hf
    exact hf

theorem sorted_head_min {l : List SiteGroup}
    (hp : l.Pairwise (fun a b => a.distance ≤ b.distance)) {s x : SiteGroup}
    (hs : l.get? 0 = some s) (hx : x ∈ l) : s.distance ≤ x.distance := by
  cases l with
  | nil => cases hx
  | cons a t =>
    injection hs with hs
    subst hs
    rcases List.mem_cons.mp hx with h | h
    · exact h ▸ le_refl _
    · exact (List.pairwise_cons.mp hp).1 x h

theorem sorted_last_max {l : List SiteGroup}
    (hp : l.Pairwise (fun a b => a.distance ≤ b.distance)) {s x : SiteGroup}
    (hs : l.get? (l.length - 1) = some s) (hx : x ∈ l) : x.distance ≤ s.distance := by
  induction l with
  | nil => cases hx
  | cons a t ih =>
    cases t with
    | nil =>
      injection hs with hs
      subst hs
      rcases List.mem_cons.mp hx with h | h
      · exact h ▸ le_refl _
      · cases h
    | cons b t' =>
      have hidx : (a :: b :: t').length - 1 = ((b :: t').length - 1) + 1 := by
        simp only [List.length_cons]
        omega
      rw [hidx] at hs
      have hs' : (b :: t').get? ((b :: t').length - 1) = some s := hs
      have hp' := (List.pairwise_cons.mp hp).2
      rcases List.mem_cons.mp hx with h | h
      · subst h
        have hsm : s ∈ b :: t' := List.get?_mem hs'
        exact (List.pairwise_cons.mp hp).1 s hsm
      · exact ih hp' hs' h

/-- Master lemma: on a nonempty dataset whose features all admit a centroid,
the analysis succeeds, reports the clamped rank, and selects the site of
that rank in the distance ordering. -/
theorem perform_ok_detail (prims : GeoPrims) (searchLat searchLng : ℚ)
    (features : List Feature) (rank : ℤ)
    (hne : features ≠ [])
    (hcen : ∀ f ∈ features, (prims.centroidOpt f.geom).isSome) :
    ∃ gs r, clusterSites prims (searchLng, searchLat)
        (featuresToAnalyzeOf prims searchLat searchLng features) = Except.ok gs ∧
      performSpatialAnalysis prims searchLat searchLng features rank = Except.ok r ∧
      r.totalFeatures = gs.length ∧ 1 ≤ gs.length ∧
      r.rank = max 1 (min rank (gs.length : ℤ)) ∧
      (∃ site ∈ gs, r.distance = site.distance) ∧
      (∃ (sorted : List SiteGroup) (site : SiteGroup), sorted.Perm gs ∧
        sorted.Pairwise (fun a b : SiteGroup => a.distance ≤ b.distance) ∧
        sorted.get? (max 1 (min rank (gs.length : ℤ)) - 1).toNat = some site ∧
        r.distance = site.distance) ∧
      (rank ≤ 1 → ∀ g ∈ gs, r.distance ≤ g.distance) ∧
      ((gs.length : ℤ) ≤ rank → ∀ g ∈ gs, g.distance ≤ r.distance) := by
  have hftane := featuresToAnalyzeOf_ne_nil prims searchLat searchLng features hne
  have hsub := featuresToAnalyzeOf_sub prims searchLat searchLng features
  have hcen' : ∀ f ∈ featuresToAnalyzeOf prims searchLat searchLng features,
      (prims.centroidOpt f.geom).isSome := fun f hf => hcen f (hsub f hf)
  obtain ⟨gs, hgs⟩ := clusterSites_ok prims (searchLng, searchLat) _ hcen'
  have hinv := clusterSites_inv prims (searchLng, searchLat) _ gs hgs
  -- gs is nonempty
  obtain ⟨f0, hf0⟩ := List.exists_mem_of_ne_nil _ hftane
  obtain ⟨c0, hc0⟩ := centerCoordsE_ok prims f0 (hcen' f0 hf0)
  have hke : keyOfE prims f0 = some (siteKey c0) := by
    unfold keyOfE
    rw [hc0]
  obtain ⟨g0, hg0, -⟩ := hinv.2.2 f0 hf0 _ hke
  have hgsne : gs ≠ [] := fun hcon => by
    rw [hcon] at hg0
    cases hg0
  have hlenpos : 0 < gs.length := List.length_pos.mpr hgsne
  -- the sorted sites
  have hperm := stableSort_perm (fun a b : SiteGroup => decide (a.distance ≤ b.distance)) gs
  have hsortedb := stableSort_pairwise (fun a b : SiteGroup => decide (a.distance ≤ b.distance))
    (fun a b => by
      rcases le_total a.distance b.distance with h | h
      · exact Or.inl (decide_eq_true h)
      · exact Or.inr (decide_eq_true h))
    (fun a b c h1 h2 =>
      decide_eq_true (le_trans (of_decide_eq_true h1) (of_decide_eq_true h2))) gs
  have hsorted : (stableSort (fun a b : SiteGroup => decide (a.distance ≤ b.distance)) gs).Pairwise
      (fun a b => a.distance ≤ b.distance) := hsortedb.imp fun h => of_decide_eq_true h
  have hlen : (stableSort (fun a b : SiteGroup => decide (a.distance ≤ b.distance)) gs).length
      = gs.length := hperm.length_eq
  have hidx : (max 1 (min rank (gs.length : ℤ)) - 1).toNat <
      (stableSort (fun a b : SiteGroup => decide (a.distance ≤ b.distance)) gs).length := by
    rw [hlen]
    omega
  obtain ⟨selected, hsel⟩ : ∃ s,
      (stableSort (fun a b : SiteGroup => decide (a.distance ≤ b.distance)) gs).get?
        (max 1 (min rank (gs.length : ℤ)) - 1).toNat = some s := by
    rcases hx : (stableSort (fun a b : SiteGroup => decide (a.distance ≤ b.distance)) gs).get?
        (max 1 (min rank (gs.length : ℤ)) - 1).toNat with _ | s
    · exact absurd (List.get?_eq_none.mp hx) (by omega)
    · exact ⟨s, rfl⟩
  have hselmem : selected ∈ gs := hperm.mem_iff.mp (List.get?_mem hsel)
  obtain ⟨hfilter, hrefkey, hdist, fc0, rest, hcand, href⟩ := hinv.2.1 selected hselmem
  have hcandmem : ∀ f ∈ selected.candidates, f ∈ featuresToAnalyzeOf prims searchLat searchLng features := by
    intro f hf
    rw [hfilter] at hf
    exact List.mem_of_mem_filter hf
  obtain ⟨ecs, hecs, hecslen⟩ := mapM_evalCandidate_ok prims (searchLng, searchLat)
    selected.referencePoint
    (normalizeAngle (prims.bearing selected.referencePoint (searchLng, searchLat)))
    (decide (selected.distance * 1000 < 30)) selected.candidates
    (fun f hf => hcen' f (hcandmem f hf))
  have hecsne : ecs ≠ [] := by
    intro hcon
    rw [hcon] at hecslen
    rw [hcand] at hecslen
    simp at hecslen
  have hsortecsne : stableSort (fun a b : EvalCand => decide (a.score ≤ b.score)) ecs ≠ [] := by
    intro hcon
    have := (stableSort_perm (fun a b : EvalCand => decide (a.score ≤ b.score)) ecs).length_eq
    rw [hcon] at this
    exact hecsne (List.length_eq_zero.mp this.symm)
  rcases hbest : stableSort (fun a b : EvalCand => decide (a.score ≤ b.score)) ecs
    with _ | ⟨best, bestRest⟩
  · exact absurd hbest hsortecsne
  · have hperf : performSpatialAnalysis prims searchLat searchLng features rank =
        Except.ok { nearestFeature := best.feature,
                    distance := selected.distance,
                    bearing := normalizeAngle
                      (prims.bearing (searchLng, searchLat) selected.referencePoint),
                    sectorAzimuth := best.azimuth,
                    sectorBeamwidth := best.beamwidth,
                    deviationAngle := best.deviation,
                    isInside := best.isInside,
                    searchPoint := (searchLng, searchLat),
                    nearestPoint := selected.referencePoint,
                    rank := max 1 (min rank (gs.length : ℤ)),
                    totalFeatures := gs.length } := by
      unfold performSpatialAnalysis
      rw [if_neg (by simpa using hne)]
      rw [hgs]
      dsimp only
      rw [hlen, hsel]
      dsimp only
      rw [hecs]
      dsimp only
      rw [hbest]
    refine ⟨gs, _, hgs, hperf, rfl, by omega, rfl, ⟨selected, hselmem, rfl⟩,
      ⟨stableSort (fun a b : SiteGroup => decide (a.distance ≤ b.distance)) gs, selected,
        hperm, hsorted, hsel, rfl⟩, ?_, ?_⟩
    · intro hr g hg
      have hone : (max 1 (min rank (gs.length : ℤ)) - 1).toNat = 0 := by omega
      rw [hone] at hsel
      have hgmem : g ∈ stableSort (fun a b : SiteGroup => decide (a.distance ≤ b.distance)) gs :=
        hperm.mem_iff.mpr hg
      exact sorted_head_min hsorted hsel hgmem
    · intro hr g hg
      have hlast : (max 1 (min rank (gs.length : ℤ)) - 1).toNat =
          (stableSort (fun a b : SiteGroup => decide (a.distance ≤ b.distance)) gs).length - 1 := by
        rw [hlen]
        omega
      rw [hlast] at hsel
      have hgmem : g ∈ stableSort (fun a b : SiteGroup => decide (a.distance ≤ b.distance)) gs :=
        hperm.mem_iff.mpr hg
      exact sorted_last_max hsorted hsel hgmem

/-! ### Error taxonomy (claim C5) -/

theorem centerCoordsE_error (prims : GeoPrims) (f : Feature) (e : String)
    (h : centerCoordsE prims f = Except.error e) : e = "geometry error" := by
  unfold centerCoordsE at h
  rcases hfc : f.center with _ | c
  · rw [hfc] at h
    rcases hca : f.coordAllF with _ | ⟨c, cs⟩
    · rw [hca] at h
      rcases hco : prims.centroidOpt f.geom with _ | c
      · rw [hco] at h
        injection h with h
        exact h.symm
      · rw [hco] at h
        cases h
    · rw [hca] at h
      cases h
  · rw [hfc] at h
    cases h

theorem clusterFold_error (prims : GeoPrims) (target : Coord) :
    ∀ (fs : List Feature) (gs : List SiteGroup) (e : String),
      fs.foldlM (fun groups f =>
        match centerCoordsE prims f with
        | Except.error e => (Except.error e : Except String (List SiteGroup))
        | Except.ok cc => Except.ok (insertFeature prims target groups f cc)) gs =
        Except.error e →
      e = "geometry error" := by
  intro fs
  induction fs with
  | nil =>
    intro gs e h
    simp only [List.foldlM_nil] at h
    cases h
  | cons f fs ih =>
    intro gs e h
    rw [List.foldlM_cons] at h
    rcases hcc : centerCoordsE prims f with e' | cc
    · rw [hcc] at h
      have h' : (Except.error e' : Except String (List SiteGroup)) = Except.error e := h
      injection h' with h'
      exact h' ▸ centerCoordsE_error prims f e' hcc
    · rw [hcc] at h
      exact ih (insertFeature prims target gs f cc) e h

theorem analyzeSectorGeometry_error (prims : GeoPrims) (f : Feature) (tc : Coord)
    (e : String) (h : analyzeSectorGeometry prims f tc = Except.error e) :
    e = "geometry error" := by
  unfold analyzeSectorGeometry at h
  rcases hg : f.geom with _ | g
  · rw [hg] at h
    cases h
  · rw [hg] at h
    by_cases hp : g.isPointType
    · simp only [hp, if_true] at h
      cases h
    · simp only [hp, Bool.false_eq_true, if_false] at h
      rcases hco : prims.centroidOpt (some g) with _ | cp
      · rw [hco] at h
        injection h with h
        exact h.symm
      · rw [hco] at h
        dsimp only at h
        by_cases hfar : 1000 * prims.dist tc cp < 2
        · rw [if_pos hfar] at h
          cases h
        · rw [if_neg hfar] at h
          by_cases ho : outerCoordsOf prims tc g = []
          · rw [if_pos ho] at h
            cases h
          · rw [if_neg ho] at h
            by_cases hgap :
                (gapScan (sortedBearings prims tc (outerCoordsOf prims tc g))).maxGap < 60
            · rw [if_pos hgap] at h
              cases h
            · rw [if_neg hgap] at h
              cases h

theorem evalCandidate_error (prims : GeoPrims) (target refPoint : Coord) (b2u : ℚ)
    (nf : Bool) (f : Feature) (e : String)
    (h : evalCandidate prims target refPoint b2u nf f = Except.error e) :
    e = "geometry error" := by
  unfold evalCandidate at h
  rcases hm : analyzeSectorGeometry prims f refPoint with e' | m
  · rw [hm] at h
    injection h with h
    exact h ▸ analyzeSectorGeometry_error prims f refPoint e' hm
  · rw [hm] at h
    cases h

theorem mapM_evalCandidate_error (prims : GeoPrims) (target refPoint : Coord)
    (b2u : ℚ) (nf : Bool) :
    ∀ (l : List Feature) (e : String),
      l.mapM (evalCandidate prims target refPoint b2u nf) = Except.error e →
      e = "geometry error" := by
  intro l
  induction l with
  | nil =>
    intro e h
    cases h
  | cons f l ih =>
    intro e h
    rw [List.mapM_cons] at h
    rcases hec : evalCandidate prims target refPoint b2u nf f with e' | ec
    · rw [hec] at h
      have h' : (Except.error e' : Except String (List EvalCand)) = Except.error e := h
      injection h' with h'
      exact h' ▸ evalCandidate_error prims target refPoint b2u nf f e' hec
    · rw [hec] at h
      rcases hecs : l.mapM (evalCandidate prims target refPoint b2u nf) with e'' | ecs
      · rw [hecs] at h
        have h' : (Except.error e'' : Except String (List EvalCand)) = Except.error e := h
        injection h' with h'
        exact h' ▸ ih e'' hecs
      · rw [hecs] at h
        cases h

theorem mapM_ok_length {α β : Type} (f : α → Except String β) :
    ∀ (l : List α) (bs : List β), l.mapM f = Except.ok bs → bs.length = l.length := by
  intro l
  induction l with
  | nil =>
    intro bs h
    injection h with h
    rw [← h]
    rfl
  | cons a l ih =>
    intro bs h
    rw [List.mapM_cons] at h
    rcases ha : f a with e | b
    · rw [ha] at h
      cases h
    · rw [ha] at h
      rcases hl : l.mapM f with e | bs'
      · rw [hl] at h
        cases h
      · rw [hl] at h
        have h' : (Except.ok (b :: bs') : Except String (List β)) = Except.ok bs := h
        injection h' with h'
        rw [← h']
        simp [ih bs' hl]

theorem perform_error_msgs (prims : GeoPrims) (searchLat searchLng : ℚ)
    (features : List Feature) (rank : ℤ) (hne : features ≠ []) (e : String)
    (h : performSpatialAnalysis prims searchLat searchLng features rank =
      Except.error e) :
    e = "geometry error" ∨ e = "No suitable site found." := by
  unfold performSpatialAnalysis at h
  rw [if_neg (by simpa using hne)] at h
  rcases hc : clusterSites prims (searchLng, searchLat)
      (featuresToAnalyzeOf prims searchLat searchLng features) with e' | gs
  · rw [hc] at h
    injection h with h
    exact Or.inl (h ▸ clusterFold_error prims (searchLng, searchLat) _ [] e' hc)
  · rw [hc] at h
    dsimp only at h
    rcases hsel : (stableSort (fun a b : SiteGroup => decide (a.distance ≤ b.distance)) gs).get?
        (max 1 (min rank ((stableSort (fun a b : SiteGroup => decide (a.distance ≤ b.distance))
          gs).length : ℤ)) - 1).toNat with _ | selected
    · rw [hsel] at h
      injection h with h
      exact Or.inr h.symm
    · rw [hsel] at h
      dsimp only at h
      rcases hecs : selected.candidates.mapM
          (evalCandidate prims (searchLng, searchLat) selected.referencePoint
            (normalizeAngle (prims.bearing selected.referencePoint (searchLng, searchLat)))
            (decide (selected.distance * 1000 < 30))) with e'' | ecs
      · rw [hecs] at h
        injection h with h
        exact Or.inl (h ▸ mapM_evalCandidate_error prims _ _ _ _ _ e'' hecs)
      · rw [hecs] at h
        dsimp only at h
        rcases hsort : stableSort (fun a b : EvalCand => decide (a.score ≤ b.score)) ecs
            with _ | ⟨best, bestRest⟩
        · -- the "internal" branch is unreachable: the selected group always
          -- has at least one member, so the evaluated list is nonempty
          exfalso
          have hinv := clusterSites_inv prims (searchLng, searchLat) _ gs hc
          have hselmem : selected ∈ gs :=
            (stableSort_perm (fun a b : SiteGroup => decide (a.distance ≤ b.distance))
              gs).mem_iff.mp (List.get?_mem hsel)
          obtain ⟨-, -, -, f0, rest, hcand, -⟩ := hinv.2.1 selected hselmem
          have hlenecs : ecs.length = selected.candidates.length :=
            mapM_ok_length _ _ _ hecs
          have hecsne : ecs ≠ [] := by
            intro hcon
            rw [hcon, hcand] at hlenecs
            simp at hlenecs
          have := (stableSort_perm (fun a b : EvalCand => decide (a.score ≤ b.score))
            ecs).length_eq
          rw [hsort] at this
          exact hecsne (List.length_eq_zero.mp this.symm)
        · rw [hsort] at h
          cases h

/-! ### Claim C5 (corrected) -/

/-- Feature with no precomputed anchor and an empty-ring Polygon: its
`coordAll` is empty, so turf `centroid` throws on it (the mean of zero
coordinates is `NaN`, which turf's `point` constructor rejects). -/
def f5 : Feature := { props := [], center := none, geom := some (.polygon []) }

/-- Primitives whose centroid computation fails on every geometry, as turf's
does on `f5`. -/
def cPrims5 : GeoPrims where
  bearing := fun _ _ => 0
  dist := fun _ _ => 0
  cosDeg := fun _ => 1
  centroidOpt := fun _ => none
  containsOpt := fun _ _ => some false

/-- C5, counterexample to the claim as stated: on the nonempty dataset
`[f5]` the query raises an error that is neither of the two dataset-level
errors.  The prefilter catch excludes `f5` (its slow-path centroid fails),
the empty-candidates fallback re-admits it, and the UNGUARDED centroid call
of the clustering fallback (spatialService.ts line 218) then lets the
exception escape — so a per-feature geometric failure does reach the
caller. -/
theorem performSpatialAnalysis_escape_counterexample :
    ([f5] : List Feature) ≠ [] ∧
      performSpatialAnalysis cPrims5 0 0 [f5] 1 = Except.error "geometry error" ∧
      "geometry error" ≠ "No features found in dataset to analyze." ∧
      "geometry error" ≠ "No suitable site found." :=
  ⟨by simp, rfl, by decide, by decide⟩

/-- C5, amended: the analysis throws "No features found in dataset to
analyze." exactly on an empty feature collection.  The two guarded
per-feature failure points really do recover locally: a feature whose
centroid computation fails (and that has no precomputed anchor) is merely
excluded by the bounding-box prefilter, and containment failures are
swallowed — on a nonempty collection whose features all admit centroids the
query succeeds for EVERY containment oracle, including one failing on every
call.  Any other raised error is either "No suitable site found." (the
zero-sites condition) or the escaped geometry exception of the unguarded
centroid call sites (spatialService.ts lines 218 and 68), and either way
some feature's centroid computation must have failed. -/
theorem performSpatialAnalysis_errors (prims : GeoPrims) (searchLat searchLng : ℚ)
    (features : List Feature) (rank : ℤ) :
    (performSpatialAnalysis prims searchLat searchLng features rank =
        Except.error "No features found in dataset to analyze." ↔ features = []) ∧
      (∀ f ∈ features, f.center = none → prims.centroidOpt f.geom = none →
        f ∉ bboxCandidates prims searchLat searchLng features) ∧
      (features ≠ [] → (∀ f ∈ features, (prims.centroidOpt f.geom).isSome) →
        ∀ co : Coord → Geometry → Option Bool,
          ∃ r, performSpatialAnalysis { prims with containsOpt := co }
            searchLat searchLng features rank = Except.ok r) ∧
      (∀ e, performSpatialAnalysis prims searchLat searchLng features rank =
          Except.error e → e ≠ "No features found in dataset to analyze." →
        (e = "geometry error" ∨ e = "No suitable site found.") ∧
          ∃ f ∈ features, prims.centroidOpt f.geom = none) := by
  have hok : features ≠ [] → (∀ f ∈ features, (prims.centroidOpt f.geom).isSome) →
      ∀ co : Coord → Geometry → Option Bool,
        ∃ r, performSpatialAnalysis { prims with containsOpt := co }
          searchLat searchLng features rank = Except.ok r := by
    intro hne hcen co
    obtain ⟨gs, r, -, hperf, -⟩ :=
      perform_ok_detail { prims with containsOpt := co } searchLat searchLng features
        rank hne hcen
    exact ⟨r, hperf⟩
  refine ⟨?_, ?_, hok, ?_⟩
  · constructor
    · intro h
      by_contra hne
      rcases perform_error_msgs prims searchLat searchLng features rank hne _ h
        with h1 | h1 <;> exact absurd h1 (by decide)
    · intro h
      rw [h]
      rfl
  · intro f hf hcenf hcopt hmem
    unfold bboxCandidates at hmem
    have hpred := (List.mem_filter.mp hmem).2
    simp only [hcenf, hcopt] at hpred
    exact absurd hpred (by decide)
  · intro e he hne'
    have hne : features ≠ [] := by
      intro hcon
      rw [hcon] at he
      have : (Except.error e : Except String AnalysisResult) =
          Except.error "No features found in dataset to analyze." := by
        rw [← he]
        rfl
      injection this with this
      exact hne' this
    refine ⟨perform_error_msgs prims searchLat searchLng features rank hne e he, ?_⟩
    by_contra hno
    push_neg at hno
    have hcen : ∀ f ∈ features, (prims.centroidOpt f.geom).isSome := by
      intro f hf
      rcases hcase : prims.centroidOpt f.geom with _ | c
      · exact absurd hcase (hno f hf)
      · rfl
    obtain ⟨r, hr⟩ := hok hne hcen prims.containsOpt
    have hsame : ({ prims with containsOpt := prims.containsOpt } : GeoPrims) = prims := rfl
    rw [hsame, he] at hr
    cases hr

/-- A well-behaved concrete feature: no explicit anchor, no geometry, so
the analysis relies entirely on the (always succeeding) centroid of
`wPrims`. -/
def wFeatN : Feature := { props := [], center := none, geom := none }

/-- C5 witness: the prefilter-recovery clause applied to the concrete
failing feature, and the success clause applied to a singleton dataset
under an always-failing containment oracle. -/
theorem performSpatialAnalysis_errors_witness :
    f5 ∉ bboxCandidates cPrims5 0 0 [f5] ∧
      ∃ r, performSpatialAnalysis { wPrims with containsOpt := fun _ _ => none }
        0 0 [wFeatN] 1 = Except.ok r :=
  ⟨(performSpatialAnalysis_errors cPrims5 0 0 [f5] 1).2.1 f5
      (List.mem_singleton_self _) rfl rfl,
    (performSpatialAnalysis_errors wPrims 0 0 [wFeatN] 1).2.2.1
      (by simp) (fun f hf => rfl) (fun _ _ => none)⟩

/-! ### Claim C6 -/

/-- C6: with at least one site, the analysis never errors on account of the
requested rank: the reported rank is the clamp of the request to
`[1, totalSites]`; a request at or below 1 selects a site at minimal
distance and reports rank 1; a request at or above the site count selects a
site at maximal distance and reports rank totalSites.  Sites are ranked
ascending by the distance to the query point. -/
theorem rank_clamping (prims : GeoPrims) (searchLat searchLng : ℚ)
    (features : List Feature) (rank : ℤ)
    (hne : features ≠ [])
    (hcen : ∀ f ∈ features, (prims.centroidOpt f.geom).isSome) :
    ∃ gs r, clusterSites prims (searchLng, searchLat)
        (featuresToAnalyzeOf prims searchLat searchLng features) = Except.ok gs ∧
      performSpatialAnalysis prims searchLat searchLng features rank = Except.ok r ∧
      r.totalFeatures = gs.length ∧ 1 ≤ gs.length ∧
      r.rank = max 1 (min rank (gs.length : ℤ)) ∧
      (∃ (sorted : List SiteGroup) (site : SiteGroup), sorted.Perm gs ∧
        sorted.Pairwise (fun a b : SiteGroup => a.distance ≤ b.distance) ∧
        sorted.get? (max 1 (min rank (gs.length : ℤ)) - 1).toNat = some site ∧
        r.distance = site.distance) ∧
      (rank ≤ 1 → r.rank = 1 ∧ ∀ g ∈ gs, r.distance ≤ g.distance) ∧
      ((gs.length : ℤ) ≤ rank → r.rank = gs.length ∧
        ∀ g ∈ gs, g.distance ≤ r.distance) := by
  obtain ⟨gs, r, hgs, hperf, htot, hpos, hrank, hsite, hsorted, hmin, hmax⟩ :=
    perform_ok_detail prims searchLat searchLng features rank hne hcen
  refine ⟨gs, r, hgs, hperf, htot, hpos, hrank, hsorted, ?_, ?_⟩
  · intro hr
    refine ⟨by rw [hrank]; omega, hmin hr⟩
  · intro hr
    refine ⟨by rw [hrank]; omega, hmax hr⟩

/-- C6 witness: the clamping applied at requested rank 0 on a singleton
dataset. -/
theorem rank_clamping_witness :
    ∃ gs r, clusterSites wPrims (0, 0)
        (featuresToAnalyzeOf wPrims 0 0 [wFeatN]) = Except.ok gs ∧
      performSpatialAnalysis wPrims 0 0 [wFeatN] 0 = Except.ok r ∧
      r.totalFeatures = gs.length ∧ 1 ≤ gs.length ∧
      r.rank = max 1 (min 0 (gs.length : ℤ)) ∧
      (∃ (sorted : List SiteGroup) (site : SiteGroup), sorted.Perm gs ∧
        sorted.Pairwise (fun a b : SiteGroup => a.distance ≤ b.distance) ∧
        sorted.get? (max 1 (min 0 (gs.length : ℤ)) - 1).toNat = some site ∧
        r.distance = site.distance) ∧
      ((0 : ℤ) ≤ 1 → r.rank = 1 ∧ ∀ g ∈ gs, r.distance ≤ g.distance) ∧
      ((gs.length : ℤ) ≤ 0 → r.rank = gs.length ∧
        ∀ g ∈ gs, g.distance ≤ r.distance) :=
  rank_clamping wPrims 0 0 [wFeatN] 0 (by simp) (fun f hf => rfl)

/-! ### Claim C8 -/

/-- C8: every feature reaching clustering with a precomputed anchor lands in
the site keyed by its anchor's latitude and longitude rounded to 4 decimal
places; that site's members are exactly the input features sharing the key,
in input order; its reference point is the center of its first member, its
distance is the great-circle distance from the query point to that
reference point, and every member shares the rounding key. -/
theorem clustering_spec (prims : GeoPrims) (target : Coord) (fs : List Feature)
    (gs : List SiteGroup) (h : clusterSites prims target fs = Except.ok gs)
    (f : Feature) (hf : f ∈ fs) (c : Coord) (hc : f.center = some c) :
    ∃ g ∈ gs, g.key = (toFixed4 c.2, toFixed4 c.1) ∧ f ∈ g.candidates ∧
      g.candidates = fs.filter (fun f' => keyOfE prims f' = some g.key) ∧
      (∃ f0 rest, g.candidates = f0 :: rest ∧
        centerCoordsE prims f0 = Except.ok g.referencePoint ∧
        g.distance = prims.dist target g.referencePoint) ∧
      (∀ f' ∈ g.candidates, keyOfE prims f' = some g.key) := by
  have hinv := clusterSites_inv prims target fs gs h
  have hcc : centerCoordsE prims f = Except.ok c := by
    unfold centerCoordsE
    rw [hc]
  have hkey : keyOfE prims f = some (siteKey c) := by
    unfold keyOfE
    rw [hcc]
  obtain ⟨g, hg, hgk⟩ := hinv.2.2 f hf _ hkey
  obtain ⟨hfilter, hrefkey, hdist, f0, rest, hcand, href⟩ := hinv.2.1 g hg
  refine ⟨g, hg, hgk, ?_, hfilter, ⟨f0, rest, hcand, href, hdist⟩, ?_⟩
  · rw [hfilter]
    apply List.mem_filter.mpr
    exact ⟨hf, by rw [hkey, hgk]; exact decide_eq_true rfl⟩
  · intro f' hf'
    rw [hfilter] at hf'
    exact of_decide_eq_true (List.mem_filter.mp hf').2

/-- Feature with a precomputed anchor, for the C8 witness. -/
def wFeatC : Feature := { props := [], center := some (1, 2), geom := none }

/-- C8 witness: a singleton dataset clusters into the one site keyed by the
rounded anchor, holding the feature. -/
theorem clustering_spec_witness :
    ∃ g ∈ [SiteGroup.mk (siteKey (1, 2)) (1, 2) (wPrims.dist (0, 0) (1, 2)) [wFeatC]],
      g.key = (toFixed4 (1, 2).2, toFixed4 (1, 2).1) ∧ wFeatC ∈ g.candidates ∧
      g.candidates = [wFeatC].filter (fun f' => keyOfE wPrims f' = some g.key) ∧
      (∃ f0 rest, g.candidates = f0 :: rest ∧
        centerCoordsE wPrims f0 = Except.ok g.referencePoint ∧
        g.distance = wPrims.dist (0, 0) g.referencePoint) ∧
      (∀ f' ∈ g.candidates, keyOfE wPrims f' = some g.key) :=
  clustering_spec wPrims (0, 0) [wFeatC]
    [SiteGroup.mk (siteKey (1, 2)) (1, 2) (wPrims.dist (0, 0) (1, 2)) [wFeatC]]
    rfl wFeatC (List.mem_singleton_self _) (1, 2) rfl
